import Mathlib

/-!
# Verification of the self-driving wheelchair navigation core (`self_drive.py`)

Shallow embedding of the navigation core of `self_drive.py`:

* the decaying occupancy grid (`_process_queued_data` / `_update_occupancy_grid`),
* the polar-to-map frame transform (`_polar_to_cartesian_map_frame`),
* the A* path planner (`_is_valid_and_clear`, `_heuristic`, `_plan_path_threaded`),
* the navigation state machine (`send_command`, `_handle_command_send_error`,
  `_execute_navigation_step`, `_on_action_completed`).

Cell values (Python float32) are modelled as rationals; Python `int` as `ℤ`;
`float('inf')` entries of the A* score dictionaries as `⊤ : WithTop ℕ`.
`math.sin`/`math.cos` are modelled as abstract function parameters (the claims
about the transform do not depend on their values).
-/

set_option allowUnsafeReducibility true

attribute [local semireducible] Rat.add Rat.sub Rat.mul Rat.div Rat.neg Rat.inv

namespace SelfDrive

/-- Grid cells are `(row, col)` pairs of Python ints. -/
abbrev Cell := ℤ × ℤ

/-- The occupancy grid, `self.occupancy_grid`, as a total function on indices
(the code only ever reads or writes in-bounds indices). -/
abbrev Grid := ℤ → ℤ → ℚ

/-! ## Configuration constants (lines 46–56 of `self_drive.py`) -/

/-- `GRID_DIMENSION = int(MAP_SIZE_METERS * 1000 / CELL_SIZE_MM) = 80`. -/
def GRID_DIMENSION : ℤ := 80

/-- `HIT_INCREMENT = 25`. -/
def HIT_INCREMENT : ℚ := 25

/-- `DECAY_RATE = 0.90`. -/
def DECAY_RATE : ℚ := 9 / 10

/-- `MAX_CELL_VALUE = 150`. -/
def MAX_CELL_VALUE : ℚ := 150

/-- `RENDER_THRESHOLD = 40`. -/
def RENDER_THRESHOLD : ℚ := 40

/-- `CLEAR_BELOW_VALUE = 10`. -/
def CLEAR_BELOW_VALUE : ℚ := 10

/-- `MAX_LIDAR_RANGE_MM_DISPLAY = 4000`. -/
def MAX_LIDAR_RANGE_MM_DISPLAY : ℚ := 4000

/-- `CELL_SIZE_MM = 50`. -/
def CELL_SIZE_MM : ℚ := 50

/-- `LIDAR_MOUNTING_OFFSET_DEG = 0.0`. -/
def LIDAR_MOUNTING_OFFSET_DEG : ℚ := 0

/-- The robot's logical cell `(grid_center_y_cell, grid_center_x_cell)`,
`GRID_DIMENSION // 2 = 40` in both coordinates. -/
def gridCenter : Cell := (40, 40)

/-- The all-zero grid (`np.zeros`), the state right after `_start_udp_listener`
clears the map. -/
def zeroGrid : Grid := fun _ _ => 0

/-! ## Occupancy grid dynamics

`_process_queued_data` (lines 353–355) and `_update_occupancy_grid`
(lines 371–397) mutate cell values by exactly two pointwise operations:
decay (`grid *= DECAY_RATE; grid[grid < CLEAR_BELOW_VALUE] = 0.0`) and
hit integration (`grid[r, c] = min(current_val + HIT_INCREMENT, MAX_CELL_VALUE)`).
-/

/-- One decay step on a single cell: multiply by `DECAY_RATE`, then snap to `0`
if the result fell below `CLEAR_BELOW_VALUE`. -/
def decayCell (v : ℚ) : ℚ :=
  if v * DECAY_RATE < CLEAR_BELOW_VALUE then 0 else v * DECAY_RATE

lemma decayCell_eq (v : ℚ) :
    decayCell v = if v * DECAY_RATE < CLEAR_BELOW_VALUE then 0 else v * DECAY_RATE := rfl

lemma DECAY_RATE_nonneg : (0:ℚ) ≤ DECAY_RATE := by norm_num [DECAY_RATE]

/-- Whole-grid decay, `self.occupancy_grid *= DECAY_RATE` followed by
`self.occupancy_grid[self.occupancy_grid < CLEAR_BELOW_VALUE] = 0.0`. -/
def gridDecay (g : Grid) : Grid := fun r c => decayCell (g r c)

/-- Lidar hit integration at one cell (line 397):
`self.occupancy_grid[grid_row, grid_col] = min(current_val + HIT_INCREMENT, MAX_CELL_VALUE)`. -/
def gridHit (g : Grid) (cell : Cell) : Grid := fun r c =>
  if (r, c) = cell then min (g r c + HIT_INCREMENT) MAX_CELL_VALUE else g r c

/-- The two operations that ever mutate the occupancy grid after a reset. -/
inductive GridOp where
  | decay : GridOp
  | hit (cell : Cell) : GridOp

/-- Apply one grid operation. -/
def applyGridOp (g : Grid) : GridOp → Grid
  | GridOp.decay => gridDecay g
  | GridOp.hit cell => gridHit g cell

/-- Apply a sequence of grid operations, oldest first. -/
def applyGridOps (g : Grid) (ops : List GridOp) : Grid :=
  ops.foldl applyGridOp g

/-- A cell value within the documented range `[0, MAX_CELL_VALUE]`. -/
def cellInRange (v : ℚ) : Prop := 0 ≤ v ∧ v ≤ MAX_CELL_VALUE

/-- All cells of the grid are within range. -/
def gridInRange (g : Grid) : Prop := ∀ r c : ℤ, cellInRange (g r c)

lemma decayCell_cellInRange {v : ℚ} (h : cellInRange v) : cellInRange (decayCell v) := by
  obtain ⟨h0, h1⟩ := h
  unfold decayCell
  split
  · exact ⟨le_refl 0, by norm_num [MAX_CELL_VALUE]⟩
  · constructor
    · exact mul_nonneg h0 DECAY_RATE_nonneg
    · calc v * DECAY_RATE ≤ MAX_CELL_VALUE * DECAY_RATE := by
            apply mul_le_mul_of_nonneg_right h1
            norm_num [DECAY_RATE]
        _ ≤ MAX_CELL_VALUE := by norm_num [MAX_CELL_VALUE, DECAY_RATE]

lemma hitCell_cellInRange {v : ℚ} (h : cellInRange v) :
    cellInRange (min (v + HIT_INCREMENT) MAX_CELL_VALUE) := by
  obtain ⟨h0, _⟩ := h
  constructor
  · apply le_min
    · have : (0:ℚ) ≤ HIT_INCREMENT := by norm_num [HIT_INCREMENT]
      linarith
    · norm_num [MAX_CELL_VALUE]
  · exact min_le_right _ _

lemma applyGridOp_gridInRange {g : Grid} (h : gridInRange g) (op : GridOp) :
    gridInRange (applyGridOp g op) := by
  cases op with
  | decay => intro r c; exact decayCell_cellInRange (h r c)
  | hit cell =>
      intro r c
      show cellInRange (gridHit g cell r c)
      unfold gridHit
      split
      · exact hitCell_cellInRange (h r c)
      · exact h r c

/-- C3. Every grid cell's value stays within `[0, MAX_CELL_VALUE]` across every
decay and integration operation; in particular, repeatedly integrating hits into
the same cell never produces a value exceeding `MAX_CELL_VALUE` (each hit sets
the cell to `min(old + HIT_INCREMENT, MAX_CELL_VALUE)`). -/
theorem grid_range_invariant_C3 (ops : List GridOp) (g : Grid) (h : gridInRange g) :
    gridInRange (applyGridOps g ops) := by
  induction ops generalizing g with
  | nil => exact h
  | cons op rest ih => exact ih (applyGridOp g op) (applyGridOp_gridInRange h op)

/-- Witness for C3 at a concrete input: the all-zero grid is in range, and after
two hits on the center cell and a decay every cell is still in range. -/
theorem grid_range_invariant_C3_witness :
    gridInRange zeroGrid ∧
      gridInRange (applyGridOps zeroGrid
        [GridOp.hit gridCenter, GridOp.hit gridCenter, GridOp.decay]) := by
  have h0 : gridInRange zeroGrid := by
    intro r c
    exact ⟨le_refl 0, by norm_num [zeroGrid, MAX_CELL_VALUE]⟩
  exact ⟨h0, grid_range_invariant_C3 _ zeroGrid h0⟩

lemma decayCell_nonneg {v : ℚ} (h : 0 ≤ v) : 0 ≤ decayCell v := by
  unfold decayCell
  split
  · exact le_refl 0
  · exact mul_nonneg h DECAY_RATE_nonneg

lemma decayCell_le_mul {v : ℚ} (h : 0 ≤ v) : decayCell v ≤ v * DECAY_RATE := by
  unfold decayCell
  split
  · exact mul_nonneg h DECAY_RATE_nonneg
  · exact le_refl _

/-- After `n` decay steps a nonnegative cell value is bounded by the pure
geometric decay `v * DECAY_RATE ^ n`. -/
lemma decayCell_iterate_le (n : ℕ) {v : ℚ} (h0 : 0 ≤ v) :
    0 ≤ decayCell^[n] v ∧ decayCell^[n] v ≤ v * DECAY_RATE ^ n := by
  induction n with
  | zero => simpa using h0
  | succ n ih =>
      obtain ⟨ihn, ihb⟩ := ih
      rw [Function.iterate_succ_apply']
      refine ⟨decayCell_nonneg ihn, ?_⟩
      calc decayCell (decayCell^[n] v) ≤ decayCell^[n] v * DECAY_RATE :=
            decayCell_le_mul ihn
        _ ≤ v * DECAY_RATE ^ n * DECAY_RATE := by
            apply mul_le_mul_of_nonneg_right ihb
            norm_num [DECAY_RATE]
        _ = v * DECAY_RATE ^ (n + 1) := by ring

/-- C4. For every cell of the grid, repeated applications of decay (multiply by
`DECAY_RATE < 1`, then snap values below `CLEAR_BELOW_VALUE` to exactly `0`)
with no intervening integration drive the cell's value to exactly `0` within a
bounded number of calls: 26 decay steps suffice for any in-range grid, since
`150 * 0.9^26 < 10`. -/
theorem grid_decay_convergence_C4 (g : Grid) (h : gridInRange g) (r c : ℤ) :
    (gridDecay^[26] g) r c = 0 := by
  have hpt : ∀ n : ℕ, (gridDecay^[n] g) r c = decayCell^[n] (g r c) := by
    intro n
    induction n with
    | zero => rfl
    | succ n ih =>
        rw [Function.iterate_succ_apply', Function.iterate_succ_apply']
        show decayCell (gridDecay^[n] g r c) = decayCell (decayCell^[n] (g r c))
        rw [ih]
  rw [hpt 26]
  obtain ⟨hv0, hv1⟩ := h r c
  obtain ⟨h250, h25b⟩ := decayCell_iterate_le 25 hv0
  have hsmall : decayCell^[25] (g r c) * DECAY_RATE < CLEAR_BELOW_VALUE := by
    have hb : decayCell^[25] (g r c) ≤ MAX_CELL_VALUE * DECAY_RATE ^ 25 := by
      calc decayCell^[25] (g r c) ≤ g r c * DECAY_RATE ^ 25 := h25b
        _ ≤ MAX_CELL_VALUE * DECAY_RATE ^ 25 := by
            apply mul_le_mul_of_nonneg_right hv1
            exact pow_nonneg DECAY_RATE_nonneg 25
    calc decayCell^[25] (g r c) * DECAY_RATE
        ≤ MAX_CELL_VALUE * DECAY_RATE ^ 25 * DECAY_RATE := by
          apply mul_le_mul_of_nonneg_right hb
          norm_num [DECAY_RATE]
      _ < CLEAR_BELOW_VALUE := by norm_num [MAX_CELL_VALUE, DECAY_RATE, CLEAR_BELOW_VALUE]
  have h26 : (26 : ℕ) = 25 + 1 := rfl
  rw [h26, Function.iterate_succ_apply', decayCell_eq, if_pos hsmall]

/-- Witness for C4 at a concrete input: the all-zero grid is in range and decays
to zero at the center cell. -/
theorem grid_decay_convergence_C4_witness :
    gridInRange zeroGrid ∧ (gridDecay^[26] zeroGrid) 40 40 = 0 := by
  have h0 : gridInRange zeroGrid := by
    intro r c
    exact ⟨le_refl 0, by norm_num [zeroGrid, MAX_CELL_VALUE]⟩
  exact ⟨h0, grid_decay_convergence_C4 zeroGrid h0 40 40⟩

/-! ## Angle arithmetic

Python's `%` on floats with a positive modulus is floored modulo:
`x % 360.0 = x - 360 * floor(x / 360)`. -/

/-- `⌊q⌋` as an explicitly computable function (`Rat.floor_def`). -/
def ratFloor (q : ℚ) : ℤ := q.num / (q.den : ℤ)

lemma ratFloor_eq_floor (q : ℚ) : ratFloor q = ⌊q⌋ := by rw [Rat.floor_def]; rfl

/-- `x % 360.0` for the rational model of float angles. -/
def qmod360 (x : ℚ) : ℚ := x - 360 * (ratFloor (x / 360) : ℚ)

lemma qmod360_eq (x : ℚ) : qmod360 x = x - 360 * (⌊x / 360⌋ : ℚ) := by
  rw [qmod360, ratFloor_eq_floor]

/-- `(self.robot_orientation_map_deg - 90.0 + 360.0) % 360.0` (line 749). -/
def turnLeftHeading (h : ℚ) : ℚ := qmod360 (h - 90 + 360)

/-- `(self.robot_orientation_map_deg + 90.0) % 360.0` (line 752). -/
def turnRightHeading (h : ℚ) : ℚ := qmod360 (h + 90)

/-! ## Planner predicates -/

/-- `_is_valid_and_clear` (lines 463–467): bounds check plus occupancy below the
obstacle threshold. -/
def isValidAndClear (g : Grid) (r c : ℤ) : Bool :=
  decide (0 ≤ r) && decide (r < GRID_DIMENSION) &&
  decide (0 ≤ c) && decide (c < GRID_DIMENSION) &&
  decide (g r c < RENDER_THRESHOLD)

lemma isValidAndClear_iff (g : Grid) (r c : ℤ) :
    isValidAndClear g r c = true ↔
      0 ≤ r ∧ r < GRID_DIMENSION ∧ 0 ≤ c ∧ c < GRID_DIMENSION ∧ g r c < RENDER_THRESHOLD := by
  simp [isValidAndClear, and_assoc]

/-- `_heuristic` (lines 469–470): Manhattan distance between two cells. -/
def heuristic (cell goal : Cell) : ℕ :=
  (cell.1 - goal.1).natAbs + (cell.2 - goal.2).natAbs

/-! ## Navigation state machine

The mutable state of `LidarMapViewer` that the navigation logic touches.
Timing is modelled by two booleans: `pendingAction` stands for
`time.time() < current_action_info["end_time"]` and `timerSet` for
`action_timer_id is not None`; the wall clock itself is not modelled.
The TCP transport of `send_command` is modelled by a `SendOutcome` parameter
saying how the connect/send exchange would end. -/

/-- The ten navigation states (lines 62–71). -/
inductive NavState where
  | idle
  | planning
  | awaitingNextStep
  | turningLeft
  | turningRight
  | movingForward
  | reachedGoal
  | pathBlocked
  | noPathFound
  | robotCmdError
deriving DecidableEq

/-- Result of one transport attempt: success, or one of the three `except`
arms of `send_command` (timeout, connection refused, any other exception). -/
inductive SendOutcome where
  | ok
  | timeoutErr
  | refusedErr
  | otherErr
deriving DecidableEq

/-- Navigation-relevant mutable state of `LidarMapViewer`. -/
structure NavSys where
  navState : NavState
  heading : ℚ
  path : List Cell
  goal : Option Cell
  pendingAction : Bool
  timerSet : Bool
  lastCmdOk : Bool
  udpRunning : Bool
  plannerBusy : Bool
deriving DecidableEq

/-- The `__init__` state (lines 99–111): IDLE, heading 0, no path or goal,
`last_command_sent_successful = True`. -/
def initNavSys : NavSys :=
  { navState := NavState.idle, heading := 0, path := [], goal := none,
    pendingAction := false, timerSet := false, lastCmdOk := true,
    udpRunning := false, plannerBusy := false }

/-- `_handle_command_send_error` (lines 229–238): record the failure, cancel any
pending action timer, and transition to `ROBOT_CMD_ERROR` unless the current
state is one of `IDLE`, `REACHED_GOAL`, `NO_PATH_FOUND`. -/
def handleCommandSendError (sys : NavSys) : NavSys :=
  let sys1 := { sys with lastCmdOk := false, timerSet := false }
  if sys1.navState = NavState.idle ∨ sys1.navState = NavState.reachedGoal ∨
      sys1.navState = NavState.noPathFound then sys1
  else { sys1 with navState := NavState.robotCmdError }

/-- `send_command` (lines 197–227). Any command other than `'S'` is refused
without a transport attempt while navigation is IDLE; otherwise the one-shot
TCP exchange runs and every failure is caught, handled by
`_handle_command_send_error`, and reported as a `false` return. -/
def sendCommand (sys : NavSys) (cmd : Char) (o : SendOutcome) : NavSys × Bool :=
  if sys.navState = NavState.idle ∧ cmd ≠ 'S' then (sys, false)
  else
    match o with
    | SendOutcome.ok => ({ sys with lastCmdOk := true }, true)
    | SendOutcome.timeoutErr => (handleCommandSendError sys, false)
    | SendOutcome.refusedErr => (handleCommandSendError sys, false)
    | SendOutcome.otherErr => (handleCommandSendError sys, false)

/-- The target map orientation for a unit path step `(dr, dc)` from the center
(lines 650–657); `none` for a non-cardinal or zero step. -/
def targetOrientation (dr dc : ℤ) : Option ℚ :=
  if dr = -1 ∧ dc = 0 then some 0
  else if dr = 1 ∧ dc = 0 then some 180
  else if dr = 0 ∧ dc = -1 then some 270
  else if dr = 0 ∧ dc = 1 then some 90
  else none

/-- The four possible outcomes of the turn/forward decision. -/
inductive TurnChoice where
  | forwardMove
  | rightTurn
  | leftTurn
  | unhandled
deriving DecidableEq

/-- The heading comparison of `_execute_navigation_step` (lines 681–733) with
`angle_tolerance = 1.0`. The Python `command_to_send is None` conjunct of the
first branch is always true at that point (the variable was just initialised to
`None`), and the later stand-alone 180° `elif` is therefore unreachable, so the
decision reduces to this chain. -/
def navDecision (heading target : ℚ) : TurnChoice :=
  let diff := qmod360 (target - heading + 360)
  if |diff| < 1 ∨ |diff - 360| < 1 then TurnChoice.forwardMove
  else if (90 - 1 < diff ∧ diff < 90 + 1) ∨ (180 - 1 < diff ∧ diff < 180 + 1) then
    TurnChoice.rightTurn
  else if 270 - 1 < diff ∧ diff < 270 + 1 then TurnChoice.leftTurn
  else TurnChoice.unhandled

/-- The empty-path arm of `_execute_navigation_step` (lines 602–615). -/
def execStepEmptyPath (sys : NavSys) : NavSys :=
  let atGoal := match sys.goal with
    | some gl => decide (gridCenter = gl)
    | none => false
  if atGoal then { sys with navState := NavState.reachedGoal, path := [] }
  else if sys.navState ≠ NavState.pathBlocked then
    { sys with navState := NavState.noPathFound, path := [] }
  else { sys with path := [] }

/-- The blocked-path arm of `_execute_navigation_step` (lines 623–640): send
STOP, mark `PATH_BLOCKED`, clear the path, and re-enter `PLANNING` if the
planner thread is idle. -/
def execStepBlocked (sys : NavSys) (o : SendOutcome) : NavSys :=
  let sys1 := (sendCommand sys 'S' o).1
  let sys2 := { sys1 with navState := NavState.pathBlocked, path := [] }
  if ¬ sys2.plannerBusy then { sys2 with navState := NavState.planning } else sys2

/-- The fatal-step arm (lines 667–674) and the unhandled-orientation arm
(lines 725–733): send STOP, clear the path, mark `PATH_BLOCKED`. -/
def execStepFatal (sys : NavSys) (o : SendOutcome) : NavSys :=
  let sys1 := (sendCommand sys 'S' o).1
  { sys1 with navState := NavState.pathBlocked, path := [] }

/-- Command issue (lines 692–759): set the motion state for the choice, send
the corresponding single-character command, and on transport success apply the
logical update — pop the path head after a forward command, adjust the heading
by ±90° after a turn — then start the action timer. On failure
`send_command` has already invoked `_handle_command_send_error`. -/
def issueCommand (sys : NavSys) (restPath : List Cell) (choice : TurnChoice)
    (o : SendOutcome) : NavSys × Option Char :=
  let cmd := match choice with
    | TurnChoice.forwardMove => 'F'
    | TurnChoice.rightTurn => 'R'
    | TurnChoice.leftTurn => 'L'
    | TurnChoice.unhandled => 'S'
  let newState := match choice with
    | TurnChoice.forwardMove => NavState.movingForward
    | TurnChoice.rightTurn => NavState.turningRight
    | TurnChoice.leftTurn => NavState.turningLeft
    | TurnChoice.unhandled => NavState.pathBlocked
  let sys1 := { sys with navState := newState }
  let sent := sendCommand sys1 cmd o
  if sent.2 then
    let sys3 := match choice with
      | TurnChoice.forwardMove => { sent.1 with path := restPath }
      | TurnChoice.leftTurn => { sent.1 with heading := turnLeftHeading sent.1.heading }
      | TurnChoice.rightTurn => { sent.1 with heading := turnRightHeading sent.1.heading }
      | TurnChoice.unhandled => sent.1
    ({ sys3 with pendingAction := true, timerSet := true }, some cmd)
  else (sent.1, some cmd)

/-- One run of `_execute_navigation_step` (lines 583–771). The `SendOutcome`
parameter is the transport outcome of whichever single command this run sends
(each run sends at most one). Returns the new state and the command sent. -/
def execNavStep (sys : NavSys) (grid : Grid) (o : SendOutcome) : NavSys × Option Char :=
  if sys.navState = NavState.idle ∨ sys.navState = NavState.planning ∨
      sys.navState = NavState.reachedGoal ∨ sys.navState = NavState.noPathFound ∨
      sys.navState = NavState.pathBlocked ∨ sys.navState = NavState.robotCmdError then
    (sys, none)
  else if sys.pendingAction then (sys, none)
  else
    match sys.path with
    | [] => (execStepEmptyPath sys, none)
    | next :: restPath =>
      if ¬ isValidAndClear grid next.1 next.2 then (execStepBlocked sys o, some 'S')
      else
        let dr := next.1 - gridCenter.1
        let dc := next.2 - gridCenter.2
        match targetOrientation dr dc with
        | none =>
            if dr = 0 ∧ dc = 0 then
              ({ sys with
                  path := restPath
                  navState := NavState.awaitingNextStep
                  timerSet := true }, none)
            else (execStepFatal sys o, some 'S')
        | some target =>
            match navDecision sys.heading target with
            | TurnChoice.unhandled => (execStepFatal sys o, some 'S')
            | TurnChoice.forwardMove => issueCommand sys restPath TurnChoice.forwardMove o
            | TurnChoice.rightTurn => issueCommand sys restPath TurnChoice.rightTurn o
            | TurnChoice.leftTurn => issueCommand sys restPath TurnChoice.leftTurn o

/-- `_on_action_completed` (lines 773–809): the timer fired, so the pending
action is over; if the original F/L/R command had failed do nothing further,
otherwise send STOP and, on success, check goal arrival (empty path and goal
at the grid center) and otherwise return to `AWAITING_NEXT_STEP`. -/
def onActionCompleted (sys : NavSys) (o : SendOutcome) : NavSys × Option Char :=
  let sys0 := { sys with timerSet := false, pendingAction := false }
  if sys0.lastCmdOk = false then (sys0, none)
  else
    let sent := sendCommand sys0 'S' o
    if sent.2 = false then (sent.1, some 'S')
    else if sent.1.navState = NavState.movingForward ∨
        sent.1.navState = NavState.turningLeft ∨
        sent.1.navState = NavState.turningRight ∨
        sent.1.navState = NavState.awaitingNextStep then
      if sent.1.path = [] ∧ sent.1.goal = some gridCenter then
        ({ sent.1 with navState := NavState.reachedGoal }, some 'S')
      else ({ sent.1 with navState := NavState.awaitingNextStep }, some 'S')
    else (sent.1, some 'S')

/-- `_on_action_completed_no_command` (lines 811–818). -/
def onActionCompletedNoCommand (sys : NavSys) : NavSys :=
  let sys0 := { sys with timerSet := false }
  if sys0.navState = NavState.reachedGoal ∨ sys0.navState = NavState.pathBlocked ∨
      sys0.navState = NavState.noPathFound ∨ sys0.navState = NavState.planning ∨
      sys0.navState = NavState.idle ∨ sys0.navState = NavState.robotCmdError then sys0
  else { sys0 with navState := NavState.awaitingNextStep }

/-- The disconnect arm of `_toggle_connection` (lines 241–257): stop the robot
if navigating, reset to IDLE, clear goal and path, reset the orientation to 0,
cancel any timer. -/
def disconnectLidar (sys : NavSys) (o : SendOutcome) : NavSys :=
  let sys1 :=
    if ¬ (sys.navState = NavState.idle ∨ sys.navState = NavState.reachedGoal ∨
        sys.navState = NavState.noPathFound ∨ sys.navState = NavState.robotCmdError) then
      (sendCommand sys 'S' o).1
    else sys
  { sys1 with
    udpRunning := false
    navState := NavState.idle
    goal := none
    path := []
    heading := 0
    timerSet := false }

/-- `_start_udp_listener` (lines 266–292) restricted to the navigation state:
on a successful (re)connection the orientation is reset to 0. -/
def startUdpListener (sys : NavSys) : NavSys :=
  if sys.udpRunning then sys
  else { sys with heading := 0, udpRunning := true }

/-! ## Transport failure handling (C5, C10) -/

lemma handleCommandSendError_spec (sys : NavSys) :
    (handleCommandSendError sys).timerSet = false ∧
    (handleCommandSendError sys).lastCmdOk = false ∧
    (handleCommandSendError sys).path = sys.path ∧
    (handleCommandSendError sys).heading = sys.heading ∧
    (handleCommandSendError sys).goal = sys.goal ∧
    (handleCommandSendError sys).pendingAction = sys.pendingAction ∧
    (handleCommandSendError sys).navState =
      (if sys.navState = NavState.idle ∨ sys.navState = NavState.reachedGoal ∨
          sys.navState = NavState.noPathFound then sys.navState
        else NavState.robotCmdError) := by
  unfold handleCommandSendError
  split <;> simp_all

lemma sendCommand_heading (sys : NavSys) (cmd : Char) (o : SendOutcome) :
    ((sendCommand sys cmd o).1).heading = sys.heading := by
  unfold sendCommand
  split
  · rfl
  · cases o <;> simp [(handleCommandSendError_spec sys).2.2.2.1]

lemma sendCommand_path (sys : NavSys) (cmd : Char) (o : SendOutcome) :
    ((sendCommand sys cmd o).1).path = sys.path := by
  unfold sendCommand
  split
  · rfl
  · cases o <;> simp [(handleCommandSendError_spec sys).2.2.1]

lemma sendCommand_goal (sys : NavSys) (cmd : Char) (o : SendOutcome) :
    ((sendCommand sys cmd o).1).goal = sys.goal := by
  unfold sendCommand
  split
  · rfl
  · cases o <;> simp [(handleCommandSendError_spec sys).2.2.2.2.1]

lemma sendCommand_ok_state (sys : NavSys) (cmd : Char)
    (h : ¬(sys.navState = NavState.idle ∧ cmd ≠ 'S')) :
    sendCommand sys cmd SendOutcome.ok = ({ sys with lastCmdOk := true }, true) := by
  unfold sendCommand
  rw [if_neg h]

/-- A reachable scenario for the counterexample: the planner found the robot
already at the goal, `_path_planning_succeeded` set `REACHED_GOAL` and then sent
a defensive STOP (lines 564–568). -/
def c5Sys : NavSys :=
  { initNavSys with navState := NavState.reachedGoal, timerSet := true, udpRunning := true }

/-- C5 counterexample. A STOP command sent from `REACHED_GOAL` (as
`_path_planning_succeeded` does when already at the goal) whose transport times
out is reported as a boolean failure but does NOT transition the navigation
state to `ROBOT_CMD_ERROR`: `_handle_command_send_error` deliberately skips the
transition when the state is `IDLE`, `REACHED_GOAL` or `NO_PATH_FOUND`. -/
theorem send_error_transition_C5_counterexample :
    (sendCommand c5Sys 'S' SendOutcome.timeoutErr).2 = false ∧
    (sendCommand c5Sys 'S' SendOutcome.timeoutErr).1.navState = NavState.reachedGoal ∧
    (sendCommand c5Sys 'S' SendOutcome.timeoutErr).1.navState ≠ NavState.robotCmdError := by
  decide

/-- C5, amended. For every motion command send in which a transport exchange is
actually attempted (every command except non-STOP commands while IDLE, which
are refused without transport), any transport failure (timeout, connection
refusal, or any other transport exception) is reported to the caller as a
boolean failure and never raised, cancels any pending action timer, records the
failure, and transitions the navigation state to `ROBOT_CMD_ERROR` unless the
current state is `IDLE`, `REACHED_GOAL` or `NO_PATH_FOUND`, in which case the
state is left unchanged. -/
theorem send_error_transition_C5 (sys : NavSys) (cmd : Char) (o : SendOutcome)
    (hAttempt : ¬(sys.navState = NavState.idle ∧ cmd ≠ 'S'))
    (hFail : o ≠ SendOutcome.ok) :
    (sendCommand sys cmd o).2 = false ∧
    (sendCommand sys cmd o).1.timerSet = false ∧
    (sendCommand sys cmd o).1.lastCmdOk = false ∧
    (sendCommand sys cmd o).1.navState =
      (if sys.navState = NavState.idle ∨ sys.navState = NavState.reachedGoal ∨
          sys.navState = NavState.noPathFound then sys.navState
        else NavState.robotCmdError) := by
  obtain ⟨ht, hl, _, _, _, _, hn⟩ := handleCommandSendError_spec sys
  unfold sendCommand
  rw [if_neg hAttempt]
  cases o with
  | ok => exact absurd rfl hFail
  | timeoutErr => exact ⟨rfl, ht, hl, hn⟩
  | refusedErr => exact ⟨rfl, ht, hl, hn⟩
  | otherErr => exact ⟨rfl, ht, hl, hn⟩

/-- A state in which a forward command is in flight. -/
def c5wSys : NavSys := { initNavSys with navState := NavState.movingForward }

/-- Witness for C5 at a concrete input: a refused forward command from
`MOVING_FORWARD` returns false, cancels the timer and enters `ROBOT_CMD_ERROR`. -/
theorem send_error_transition_C5_witness :
    ¬(c5wSys.navState = NavState.idle ∧ ('F' : Char) ≠ 'S') ∧
    SendOutcome.refusedErr ≠ SendOutcome.ok ∧
    ((sendCommand c5wSys 'F' SendOutcome.refusedErr).2 = false ∧
      (sendCommand c5wSys 'F' SendOutcome.refusedErr).1.timerSet = false ∧
      (sendCommand c5wSys 'F' SendOutcome.refusedErr).1.lastCmdOk = false ∧
      (sendCommand c5wSys 'F' SendOutcome.refusedErr).1.navState =
        (if c5wSys.navState = NavState.idle ∨ c5wSys.navState = NavState.reachedGoal ∨
            c5wSys.navState = NavState.noPathFound then c5wSys.navState
          else NavState.robotCmdError)) :=
  ⟨by decide, by decide,
    send_error_transition_C5 c5wSys 'F' SendOutcome.refusedErr (by decide) (by decide)⟩

/-- C10. For every command other than `'S'`, if the navigation state is IDLE
then `send_command` returns `False` without attempting any transport connection
(the result is independent of the transport outcome and the state, including
the error flag and timer, is untouched, so `ROBOT_CMD_ERROR` cannot be
entered); the stop command `'S'` is always attempted regardless of navigation
state (its success is exactly the transport outcome). -/
theorem idle_gate_C10 (sys : NavSys) (cmd : Char) (o : SendOutcome) :
    (sys.navState = NavState.idle → cmd ≠ 'S' → sendCommand sys cmd o = (sys, false)) ∧
    ((sendCommand sys 'S' o).2 = true ↔ o = SendOutcome.ok) := by
  constructor
  · intro hIdle hCmd
    unfold sendCommand
    rw [if_pos ⟨hIdle, hCmd⟩]
  · unfold sendCommand
    have hnot : ¬(sys.navState = NavState.idle ∧ ('S' : Char) ≠ 'S') := by simp
    rw [if_neg hnot]
    cases o <;> simp

/-- Witness for C10 at a concrete input: a forward command while IDLE is
refused with the state untouched, and STOP goes through on a good transport. -/
theorem idle_gate_C10_witness :
    initNavSys.navState = NavState.idle ∧ ('F' : Char) ≠ 'S' ∧
    sendCommand initNavSys 'F' SendOutcome.timeoutErr = (initNavSys, false) ∧
    ((sendCommand initNavSys 'S' SendOutcome.ok).2 = true ↔
      SendOutcome.ok = SendOutcome.ok) :=
  ⟨rfl, by decide,
    (idle_gate_C10 initNavSys 'F' SendOutcome.timeoutErr).1 rfl (by decide),
    (idle_gate_C10 initNavSys 'S' SendOutcome.ok).2⟩

/-! ## Heading invariant (C9) -/

/-- The four cardinal map orientations. -/
def headingOK (h : ℚ) : Prop := h = 0 ∨ h = 90 ∨ h = 180 ∨ h = 270

instance (h : ℚ) : Decidable (headingOK h) := by
  unfold headingOK
  infer_instance

lemma headingOK_turnLeft {h : ℚ} (hh : headingOK h) : headingOK (turnLeftHeading h) := by
  rcases hh with rfl | rfl | rfl | rfl <;> decide

lemma headingOK_turnRight {h : ℚ} (hh : headingOK h) : headingOK (turnRightHeading h) := by
  rcases hh with rfl | rfl | rfl | rfl <;> decide

lemma execStepEmptyPath_heading (sys : NavSys) :
    (execStepEmptyPath sys).heading = sys.heading := by
  simp only [execStepEmptyPath]
  split
  · rfl
  · split_ifs <;> rfl

lemma execStepBlocked_heading (sys : NavSys) (o : SendOutcome) :
    (execStepBlocked sys o).heading = sys.heading := by
  simp only [execStepBlocked]
  split_ifs <;> simp [sendCommand_heading]

lemma execStepFatal_heading (sys : NavSys) (o : SendOutcome) :
    (execStepFatal sys o).heading = sys.heading := by
  simp only [execStepFatal]
  simp [sendCommand_heading]

lemma issueCommand_heading (sys : NavSys) (restPath : List Cell) (choice : TurnChoice)
    (o : SendOutcome) :
    ((issueCommand sys restPath choice o).1).heading = sys.heading ∨
    ((issueCommand sys restPath choice o).1).heading = turnLeftHeading sys.heading ∨
    ((issueCommand sys restPath choice o).1).heading = turnRightHeading sys.heading := by
  cases choice with
  | forwardMove =>
      refine Or.inl ?_
      simp only [issueCommand]
      split_ifs <;> simp [sendCommand_heading]
  | rightTurn =>
      by_cases hs : (sendCommand { sys with navState := NavState.turningRight } 'R' o).2 = true
      · refine Or.inr (Or.inr ?_)
        simp only [issueCommand]
        simp [hs, sendCommand_heading]
      · refine Or.inl ?_
        simp only [issueCommand]
        simp [hs, sendCommand_heading]
  | leftTurn =>
      by_cases hs : (sendCommand { sys with navState := NavState.turningLeft } 'L' o).2 = true
      · refine Or.inr (Or.inl ?_)
        simp only [issueCommand]
        simp [hs, sendCommand_heading]
      · refine Or.inl ?_
        simp only [issueCommand]
        simp [hs, sendCommand_heading]
  | unhandled =>
      refine Or.inl ?_
      simp only [issueCommand]
      split_ifs <;> simp [sendCommand_heading]

lemma execNavStep_heading (sys : NavSys) (grid : Grid) (o : SendOutcome) :
    ((execNavStep sys grid o).1).heading = sys.heading ∨
    ((execNavStep sys grid o).1).heading = turnLeftHeading sys.heading ∨
    ((execNavStep sys grid o).1).heading = turnRightHeading sys.heading := by
  simp only [execNavStep]
  split
  · exact Or.inl rfl
  split
  · exact Or.inl rfl
  split
  · exact Or.inl (execStepEmptyPath_heading sys)
  split
  · exact Or.inl (execStepBlocked_heading sys o)
  split
  · split
    · exact Or.inl rfl
    · exact Or.inl (execStepFatal_heading sys o)
  split
  · exact Or.inl (execStepFatal_heading sys o)
  · exact issueCommand_heading sys _ TurnChoice.forwardMove o
  · exact issueCommand_heading sys _ TurnChoice.rightTurn o
  · exact issueCommand_heading sys _ TurnChoice.leftTurn o

lemma onActionCompleted_heading (sys : NavSys) (o : SendOutcome) :
    ((onActionCompleted sys o).1).heading = sys.heading := by
  have h0 := sendCommand_heading { sys with timerSet := false, pendingAction := false } 'S' o
  simp only [onActionCompleted]
  split
  · rfl
  split
  · simpa using h0
  split
  · split <;> simpa using h0
  · simpa using h0

/-- C9. The robot's believed heading `robot_orientation_map_deg` is always one
of exactly `{0, 90, 180, 270}`: it is 0 initially, reset to 0 on sensor-feed
connect and disconnect, and otherwise mutated only by the ±90° (mod 360)
updates applied after a confirmed turn command; every modelled transition
preserves membership in the set. -/
theorem heading_invariant_C9 :
    headingOK initNavSys.heading ∧
    (∀ (sys : NavSys) (grid : Grid) (o : SendOutcome),
      headingOK sys.heading → headingOK ((execNavStep sys grid o).1).heading) ∧
    (∀ (sys : NavSys) (cmd : Char) (o : SendOutcome),
      headingOK sys.heading → headingOK ((sendCommand sys cmd o).1).heading) ∧
    (∀ (sys : NavSys) (o : SendOutcome),
      headingOK sys.heading → headingOK ((onActionCompleted sys o).1).heading) ∧
    (∀ sys : NavSys,
      headingOK sys.heading → headingOK (onActionCompletedNoCommand sys).heading) ∧
    (∀ (sys : NavSys) (o : SendOutcome), headingOK ((disconnectLidar sys o).heading)) ∧
    (∀ sys : NavSys, headingOK sys.heading → headingOK (startUdpListener sys).heading) := by
  refine ⟨Or.inl rfl, ?_, ?_, ?_, ?_, ?_, ?_⟩
  · intro sys grid o hh
    rcases execNavStep_heading sys grid o with h | h | h
    · rw [h]; exact hh
    · rw [h]; exact headingOK_turnLeft hh
    · rw [h]; exact headingOK_turnRight hh
  · intro sys cmd o hh
    rw [sendCommand_heading]
    exact hh
  · intro sys o hh
    rw [onActionCompleted_heading]
    exact hh
  · intro sys hh
    simp only [onActionCompletedNoCommand]
    split_ifs <;> exact hh
  · intro sys o
    exact Or.inl rfl
  · intro sys hh
    unfold startUdpListener
    split
    · exact hh
    · exact Or.inl rfl

/-- Witness for C9 at a concrete input: after a successful right-turn issue
from heading 0, the heading is still a cardinal orientation. -/
theorem heading_invariant_C9_witness :
    headingOK c5wSys.heading ∧
    headingOK ((execNavStep c5wSys zeroGrid SendOutcome.ok).1).heading :=
  ⟨by decide, heading_invariant_C9.2.1 c5wSys zeroGrid SendOutcome.ok (by decide)⟩

/-! ## Turn selection (C6) -/

/-- The turn-selection table exactly as the claim states it, keyed on the
heading delta mod 360 (spec-side definition, to be compared with the
source-side `navDecision`): aligned → forward; +90° → right; −90° (i.e. 270)
→ left; 180° → right (the fixed first half of the two-turn reversal). -/
def specTurnTable (diff : ℚ) : Option (Char × NavState) :=
  if diff = 0 then some ('F', NavState.movingForward)
  else if diff = 90 then some ('R', NavState.turningRight)
  else if diff = 270 then some ('L', NavState.turningLeft)
  else if diff = 180 then some ('R', NavState.turningRight)
  else none

lemma targetOrientation_cases {dr dc : ℤ} {t : ℚ} (h : targetOrientation dr dc = some t) :
    t = 0 ∨ t = 180 ∨ t = 270 ∨ t = 90 := by
  unfold targetOrientation at h
  split_ifs at h
  · exact Or.inl (Option.some_inj.mp h).symm
  · exact Or.inr (Or.inl (Option.some_inj.mp h).symm)
  · exact Or.inr (Or.inr (Or.inl (Option.some_inj.mp h).symm))
  · exact Or.inr (Or.inr (Or.inr (Option.some_inj.mp h).symm))

/-- On cardinal headings and cardinal targets the source decision chain agrees
with the table the specification states. -/
lemma navDecision_matches_table (h t : ℚ) (hh : headingOK h)
    (ht : t = 0 ∨ t = 180 ∨ t = 270 ∨ t = 90) :
    specTurnTable (qmod360 (t - h + 360)) =
      (match navDecision h t with
        | TurnChoice.forwardMove => some ('F', NavState.movingForward)
        | TurnChoice.rightTurn => some ('R', NavState.turningRight)
        | TurnChoice.leftTurn => some ('L', NavState.turningLeft)
        | TurnChoice.unhandled => none) ∧
      navDecision h t ≠ TurnChoice.unhandled := by
  rcases hh with rfl | rfl | rfl | rfl <;> rcases ht with rfl | rfl | rfl | rfl <;>
    exact ⟨by decide, by decide⟩

lemma issueCommand_forward_ok (sys : NavSys) (restPath : List Cell) :
    issueCommand sys restPath TurnChoice.forwardMove SendOutcome.ok =
      ({ sys with
          navState := NavState.movingForward
          path := restPath
          pendingAction := true
          timerSet := true
          lastCmdOk := true }, some 'F') := rfl

lemma issueCommand_right_ok (sys : NavSys) (restPath : List Cell) :
    issueCommand sys restPath TurnChoice.rightTurn SendOutcome.ok =
      ({ sys with
          navState := NavState.turningRight
          heading := turnRightHeading sys.heading
          pendingAction := true
          timerSet := true
          lastCmdOk := true }, some 'R') := rfl

lemma issueCommand_left_ok (sys : NavSys) (restPath : List Cell) :
    issueCommand sys restPath TurnChoice.leftTurn SendOutcome.ok =
      ({ sys with
          navState := NavState.turningLeft
          heading := turnLeftHeading sys.heading
          pendingAction := true
          timerSet := true
          lastCmdOk := true }, some 'L') := rfl

/-- Reduction of `_execute_navigation_step` to the decision match, under a
cardinal clear path head in `AWAITING_NEXT_STEP` with no pending action. -/
lemma execNavStep_decision_red (sys : NavSys) (grid : Grid) (o : SendOutcome)
    (next : Cell) (rest : List Cell) (target : ℚ)
    (hState : sys.navState = NavState.awaitingNextStep)
    (hPend : sys.pendingAction = false)
    (hPath : sys.path = next :: rest)
    (hClear : isValidAndClear grid next.1 next.2 = true)
    (hTarget : targetOrientation (next.1 - gridCenter.1) (next.2 - gridCenter.2) = some target) :
    execNavStep sys grid o =
      (match navDecision sys.heading target with
        | TurnChoice.unhandled => (execStepFatal sys o, some 'S')
        | TurnChoice.forwardMove => issueCommand sys rest TurnChoice.forwardMove o
        | TurnChoice.rightTurn => issueCommand sys rest TurnChoice.rightTurn o
        | TurnChoice.leftTurn => issueCommand sys rest TurnChoice.leftTurn o) := by
  have hguard : ¬(sys.navState = NavState.idle ∨ sys.navState = NavState.planning ∨
      sys.navState = NavState.reachedGoal ∨ sys.navState = NavState.noPathFound ∨
      sys.navState = NavState.pathBlocked ∨ sys.navState = NavState.robotCmdError) := by
    rw [hState]; decide
  have hpend' : ¬(sys.pendingAction = true) := by rw [hPend]; decide
  simp only [execNavStep]
  rw [if_neg hguard, if_neg hpend', hPath]
  dsimp only
  rw [if_neg (not_not_intro hClear), hTarget]

/-- C6. For every navigation step with a cardinal path head, from a cardinal
heading: if the heading already matches the required target heading (within
the 1° tolerance) a forward command is issued and the state becomes
`MOVING_FORWARD`; otherwise exactly one 90° turn command is selected from the
heading delta mod 360 — left for a −90° delta (i.e. 270), right for a +90°
delta — and a 180° delta is resolved by issuing a right turn as the first half
of the two-turn reversal. -/
theorem turn_selection_C6 (sys : NavSys) (grid : Grid) (next : Cell) (rest : List Cell)
    (target : ℚ)
    (hState : sys.navState = NavState.awaitingNextStep)
    (hPend : sys.pendingAction = false)
    (hPath : sys.path = next :: rest)
    (hClear : isValidAndClear grid next.1 next.2 = true)
    (hTarget : targetOrientation (next.1 - gridCenter.1) (next.2 - gridCenter.2) = some target)
    (hHeading : headingOK sys.heading) :
    ∃ cmd st, specTurnTable (qmod360 (target - sys.heading + 360)) = some (cmd, st) ∧
      (execNavStep sys grid SendOutcome.ok).2 = some cmd ∧
      ((execNavStep sys grid SendOutcome.ok).1).navState = st := by
  obtain ⟨htab, hne⟩ :=
    navDecision_matches_table sys.heading target hHeading (targetOrientation_cases hTarget)
  have hred := execNavStep_decision_red sys grid SendOutcome.ok next rest target
    hState hPend hPath hClear hTarget
  cases hnd : navDecision sys.heading target with
  | unhandled => exact absurd hnd hne
  | forwardMove =>
      rw [hnd] at hred htab
      refine ⟨'F', NavState.movingForward, htab, ?_, ?_⟩
      · rw [hred, issueCommand_forward_ok]
      · rw [hred, issueCommand_forward_ok]
  | rightTurn =>
      rw [hnd] at hred htab
      refine ⟨'R', NavState.turningRight, htab, ?_, ?_⟩
      · rw [hred, issueCommand_right_ok]
      · rw [hred, issueCommand_right_ok]
  | leftTurn =>
      rw [hnd] at hred htab
      refine ⟨'L', NavState.turningLeft, htab, ?_, ?_⟩
      · rw [hred, issueCommand_left_ok]
      · rw [hred, issueCommand_left_ok]

/-- A concrete step: awaiting the next step at heading 0 with the path head one
cell to the right of center. -/
def c6Sys : NavSys :=
  { initNavSys with
    navState := NavState.awaitingNextStep
    heading := 0
    path := [((40 : ℤ), (41 : ℤ))]
    udpRunning := true }

/-- Witness for C6 at a concrete input: path head `(40, 41)` (one cell east),
heading 0, so the delta is +90° and a right turn is selected. -/
theorem turn_selection_C6_witness :
    c6Sys.navState = NavState.awaitingNextStep ∧
    c6Sys.pendingAction = false ∧
    c6Sys.path = [((40 : ℤ), (41 : ℤ))] ∧
    isValidAndClear zeroGrid 40 41 = true ∧
    targetOrientation ((40 : ℤ) - gridCenter.1) ((41 : ℤ) - gridCenter.2) = some 90 ∧
    headingOK c6Sys.heading ∧
    (∃ cmd st, specTurnTable (qmod360 (90 - c6Sys.heading + 360)) = some (cmd, st) ∧
      (execNavStep c6Sys zeroGrid SendOutcome.ok).2 = some cmd ∧
      ((execNavStep c6Sys zeroGrid SendOutcome.ok).1).navState = st) :=
  ⟨rfl, rfl, rfl, by decide, by decide, by decide,
    turn_selection_C6 c6Sys zeroGrid ((40 : ℤ), (41 : ℤ)) [] 90
      rfl rfl rfl (by decide) (by decide) (by decide)⟩

/-! ## Timer / action completion semantics (C7) -/

/-- A step about to execute: two cells to go straight ahead (north), goal at
the far cell, heading already aligned. -/
def c7Sys : NavSys :=
  { initNavSys with
    navState := NavState.awaitingNextStep
    heading := 0
    path := [((39 : ℤ), (40 : ℤ)), ((38 : ℤ), (40 : ℤ))]
    goal := some ((38 : ℤ), (40 : ℤ))
    udpRunning := true }

/-- C7 counterexample. The claim places the path-head pop at timer expiry, but
the code pops the head at command-issue time (line 746, immediately after the
successful TCP send): right after issuing the forward command — with the
action timer still pending — the path has already shrunk to its tail, and the
timer-expiry handler `_on_action_completed` leaves the path untouched. -/
theorem timer_semantics_C7_counterexample :
    c7Sys.path = [((39 : ℤ), (40 : ℤ)), ((38 : ℤ), (40 : ℤ))] ∧
    (execNavStep c7Sys zeroGrid SendOutcome.ok).2 = some 'F' ∧
    ((execNavStep c7Sys zeroGrid SendOutcome.ok).1).pendingAction = true ∧
    ((execNavStep c7Sys zeroGrid SendOutcome.ok).1).path = [((38 : ℤ), (40 : ℤ))] ∧
    ((onActionCompleted (execNavStep c7Sys zeroGrid SendOutcome.ok).1 SendOutcome.ok).1).path
      = [((38 : ℤ), (40 : ℤ))] := by
  decide

/-- C7, amended. For every timed physical command: when its timer elapses a
stop command is sent (provided the original command had reported success); the
timer-expiry handler never mutates the path or the heading — the path-head pop
(after a forward) and the ±90° heading update (after a turn) happen earlier,
at command-issue time, immediately after the transport send succeeds; at timer
expiry, after a successful stop from a motion/awaiting state, goal arrival is
checked (entering `REACHED_GOAL` when the path is consumed and the goal is the
grid-center robot cell) and otherwise the state returns to
`AWAITING_NEXT_STEP`. -/
theorem timer_semantics_C7 (sys : NavSys) (o : SendOutcome) (h : sys.lastCmdOk = true) :
    (onActionCompleted sys o).2 = some 'S' ∧
    ((onActionCompleted sys o).1).path = sys.path ∧
    ((onActionCompleted sys o).1).heading = sys.heading ∧
    (o = SendOutcome.ok →
      (sys.navState = NavState.movingForward ∨ sys.navState = NavState.turningLeft ∨
        sys.navState = NavState.turningRight ∨ sys.navState = NavState.awaitingNextStep) →
      ((sys.path = [] ∧ sys.goal = some gridCenter →
          ((onActionCompleted sys o).1).navState = NavState.reachedGoal) ∧
        (¬(sys.path = [] ∧ sys.goal = some gridCenter) →
          ((onActionCompleted sys o).1).navState = NavState.awaitingNextStep))) ∧
    (∀ (grid : Grid) (next : Cell) (rest : List Cell),
      sys.navState = NavState.awaitingNextStep → sys.pendingAction = false →
      sys.path = next :: rest → isValidAndClear grid next.1 next.2 = true →
      ∀ target : ℚ,
        targetOrientation (next.1 - gridCenter.1) (next.2 - gridCenter.2) = some target →
        (navDecision sys.heading target = TurnChoice.forwardMove →
          ((execNavStep sys grid SendOutcome.ok).1).path = rest ∧
          ((execNavStep sys grid SendOutcome.ok).1).pendingAction = true) ∧
        (navDecision sys.heading target = TurnChoice.rightTurn →
          ((execNavStep sys grid SendOutcome.ok).1).heading = turnRightHeading sys.heading ∧
          ((execNavStep sys grid SendOutcome.ok).1).path = sys.path) ∧
        (navDecision sys.heading target = TurnChoice.leftTurn →
          ((execNavStep sys grid SendOutcome.ok).1).heading = turnLeftHeading sys.heading ∧
          ((execNavStep sys grid SendOutcome.ok).1).path = sys.path)) := by
  have hnot : ¬(({ sys with timerSet := false, pendingAction := false } : NavSys).lastCmdOk
      = false) := by
    show ¬(sys.lastCmdOk = false)
    rw [h]
    decide
  have h0path := sendCommand_path { sys with timerSet := false, pendingAction := false } 'S' o
  have h0head := sendCommand_heading { sys with timerSet := false, pendingAction := false } 'S' o
  refine ⟨?_, ?_, ?_, ?_, ?_⟩
  · simp only [onActionCompleted]
    rw [if_neg hnot]
    split
    · rfl
    split
    · split <;> rfl
    · rfl
  · simp only [onActionCompleted]
    rw [if_neg hnot]
    split
    · simpa using h0path
    split
    · split <;> simpa using h0path
    · simpa using h0path
  · simp only [onActionCompleted]
    rw [if_neg hnot]
    split
    · simpa using h0head
    split
    · split <;> simpa using h0head
    · simpa using h0head
  · intro ho hStates
    subst ho
    have hsc := sendCommand_ok_state { sys with timerSet := false, pendingAction := false } 'S'
      (by simp)
    constructor
    · intro harr
      simp only [onActionCompleted]
      rw [if_neg hnot, hsc]
      dsimp only
      rw [if_neg (by decide : ¬(true = false)), if_pos hStates, if_pos harr]
    · intro harr
      simp only [onActionCompleted]
      rw [if_neg hnot, hsc]
      dsimp only
      rw [if_neg (by decide : ¬(true = false)), if_pos hStates, if_neg harr]
  · intro grid next rest hState hPend hPath hClear target hTarget
    have hred := execNavStep_decision_red sys grid SendOutcome.ok next rest target
      hState hPend hPath hClear hTarget
    refine ⟨?_, ?_, ?_⟩
    · intro hnd
      rw [hnd] at hred
      rw [hred, issueCommand_forward_ok]
      exact ⟨rfl, rfl⟩
    · intro hnd
      rw [hnd] at hred
      rw [hred, issueCommand_right_ok]
      exact ⟨rfl, rfl⟩
    · intro hnd
      rw [hnd] at hred
      rw [hred, issueCommand_left_ok]
      exact ⟨rfl, rfl⟩

/-- A forward action whose timer is about to fire, path consumed, goal at the
robot cell. -/
def c7wSys : NavSys :=
  { initNavSys with
    navState := NavState.movingForward
    goal := some gridCenter
    pendingAction := true
    timerSet := true
    udpRunning := true }

/-- Witness for C7 at a concrete input: from `MOVING_FORWARD` with a consumed
path and the goal at the center, the timer-expiry handler sends STOP and
reaches `REACHED_GOAL`. -/
theorem timer_semantics_C7_witness :
    c7wSys.lastCmdOk = true ∧
    ((onActionCompleted c7wSys SendOutcome.ok).2 = some 'S' ∧
      ((onActionCompleted c7wSys SendOutcome.ok).1).path = c7wSys.path ∧
      ((onActionCompleted c7wSys SendOutcome.ok).1).heading = c7wSys.heading) :=
  ⟨rfl,
    (timer_semantics_C7 c7wSys SendOutcome.ok rfl).1,
    (timer_semantics_C7 c7wSys SendOutcome.ok rfl).2.1,
    (timer_semantics_C7 c7wSys SendOutcome.ok rfl).2.2.1⟩

/-! ## Frame transform (C8)

`math.sin` and `math.cos` (composed with `math.radians`, i.e. taking degrees)
are abstracted as function parameters `sinD cosD : ℚ → ℚ`; every property
claimed of the transform pipeline holds for all values of these parameters. -/

/-- Python `int()` truncation toward zero of a rational. -/
def intTrunc (q : ℚ) : ℤ := if 0 ≤ q then ratFloor q else -(ratFloor (-q))

/-- `_polar_to_cartesian_map_frame` (lines 357–369): correct the raw bearing by
the mounting offset (mod 360), rotate into the map frame by the robot heading
(mod 360), then `x = d·sin(bearing_map)`, `y = d·cos(bearing_map)`. -/
def polarToCartesianMapFrame (sinD cosD : ℚ → ℚ) (heading : ℚ)
    (angleRaw distMm : ℚ) : ℚ × ℚ :=
  let angleRel := qmod360 (angleRaw + LIDAR_MOUNTING_OFFSET_DEG)
  let angleMap := qmod360 (angleRel + heading)
  (distMm * sinD angleMap, distMm * cosD angleMap)

/-- Processing of one parsed Lidar point inside `_update_occupancy_grid`
(lines 382–397): the range gate, the frame transform, the half-cell-biased
index derivation (`int(center + x/CELL + 0.5)` / `int(center - y/CELL + 0.5)`),
the bounds check, and the clamped hit. -/
def processPoint (sinD cosD : ℚ → ℚ) (heading : ℚ) (g : Grid)
    (angleRaw distMm : ℚ) : Grid :=
  if ¬(0 < distMm ∧ distMm ≤ MAX_LIDAR_RANGE_MM_DISPLAY) then g
  else
    let xy := polarToCartesianMapFrame sinD cosD heading angleRaw distMm
    let gridCol := intTrunc ((gridCenter.2 : ℚ) + xy.1 / CELL_SIZE_MM + 1/2)
    let gridRow := intTrunc ((gridCenter.1 : ℚ) - xy.2 / CELL_SIZE_MM + 1/2)
    if 0 ≤ gridRow ∧ gridRow < GRID_DIMENSION ∧ 0 ≤ gridCol ∧ gridCol < GRID_DIMENSION then
      gridHit g (gridRow, gridCol)
    else g

/-- C8. For every sensor reading (raw bearing, range): the map-frame offset is
`x = range·sin(bearing_map)`, `y = range·cos(bearing_map)` with
`bearing_map = ((raw + mounting_offset) mod 360 + heading) mod 360`; readings
with non-positive or beyond-max-range distance leave the grid unchanged (no
transform is applied to the grid); and grid indices derived with the half-cell
rounding bias that fall outside `[0, N)` on either axis are discarded without
mutating the grid, while in-bounds indices receive exactly one clamped hit. -/
theorem frame_transform_C8 (sinD cosD : ℚ → ℚ) (heading : ℚ) (g : Grid)
    (angleRaw distMm : ℚ) :
    (polarToCartesianMapFrame sinD cosD heading angleRaw distMm =
      (distMm * sinD (qmod360 (qmod360 (angleRaw + LIDAR_MOUNTING_OFFSET_DEG) + heading)),
        distMm * cosD (qmod360 (qmod360 (angleRaw + LIDAR_MOUNTING_OFFSET_DEG) + heading)))) ∧
    (¬(0 < distMm ∧ distMm ≤ MAX_LIDAR_RANGE_MM_DISPLAY) →
      processPoint sinD cosD heading g angleRaw distMm = g) ∧
    (∀ row col : ℤ,
      row = intTrunc ((gridCenter.1 : ℚ)
          - (polarToCartesianMapFrame sinD cosD heading angleRaw distMm).2 / CELL_SIZE_MM
          + 1/2) →
      col = intTrunc ((gridCenter.2 : ℚ)
          + (polarToCartesianMapFrame sinD cosD heading angleRaw distMm).1 / CELL_SIZE_MM
          + 1/2) →
      (0 < distMm ∧ distMm ≤ MAX_LIDAR_RANGE_MM_DISPLAY) →
      ((¬(0 ≤ row ∧ row < GRID_DIMENSION ∧ 0 ≤ col ∧ col < GRID_DIMENSION) →
          processPoint sinD cosD heading g angleRaw distMm = g) ∧
        ((0 ≤ row ∧ row < GRID_DIMENSION ∧ 0 ≤ col ∧ col < GRID_DIMENSION) →
          processPoint sinD cosD heading g angleRaw distMm = gridHit g (row, col)))) := by
  refine ⟨rfl, ?_, ?_⟩
  · intro hrej
    simp only [processPoint]
    rw [if_pos hrej]
  · intro row col hrow hcol hin
    subst hrow
    subst hcol
    constructor
    · intro hoob
      simp only [processPoint]
      rw [if_neg (not_not_intro hin)]
      rw [if_neg hoob]
    · intro hib
      simp only [processPoint]
      rw [if_neg (not_not_intro hin)]
      rw [if_pos hib]

/-- Witness for C8 at a concrete input (with `sin := 0`, `cos := 1` as the
abstract trig values): a 100 mm reading at bearing 0 and heading 0 maps to row
38, col 40, which is in bounds and receives the clamped hit. -/
theorem frame_transform_C8_witness :
    ((38 : ℤ) = intTrunc ((gridCenter.1 : ℚ)
        - (polarToCartesianMapFrame (fun _ => 0) (fun _ => 1) 0 0 100).2 / CELL_SIZE_MM
        + 1/2)) ∧
    ((40 : ℤ) = intTrunc ((gridCenter.2 : ℚ)
        + (polarToCartesianMapFrame (fun _ => 0) (fun _ => 1) 0 0 100).1 / CELL_SIZE_MM
        + 1/2)) ∧
    ((0 : ℚ) < 100 ∧ (100 : ℚ) ≤ MAX_LIDAR_RANGE_MM_DISPLAY) ∧
    ((0 ≤ (38 : ℤ) ∧ (38 : ℤ) < GRID_DIMENSION ∧ 0 ≤ (40 : ℤ) ∧ (40 : ℤ) < GRID_DIMENSION) →
      processPoint (fun _ => 0) (fun _ => 1) 0 zeroGrid 0 100 = gridHit zeroGrid (38, 40)) :=
  ⟨by decide, by decide, by decide,
    ((frame_transform_C8 (fun _ => 0) (fun _ => 1) 0 zeroGrid 0 100).2.2
      38 40 (by decide) (by decide) (by decide)).2⟩

/-! ## The A* path planner (`_plan_path_threaded`, lines 472–554)

The Python `g_score`/`f_score` dictionaries map every cell to `float('inf')`
initially, modelled as `⊤ : WithTop ℕ` (all finite scores are naturals).
`heapq` on `(f_score, count, cell)` tuples pops the lexicographically smallest
tuple; the heap is modelled as the list of pushed entries with pop returning
the lexicographic minimum. The `while` loop runs at most
`max_iterations = GRID_DIMENSION * GRID_DIMENSION * 1.5 = 9600` iterations,
modelled as fuel; the path reconstruction `while temp in came_from` loop is
given fuel `maxIterations + 1`, which the invariants prove sufficient. -/

/-- A heap entry `(f_score, count, cell)` as pushed by `heapq.heappush`. -/
abbrev AEntry := WithTop ℕ × ℕ × Cell

/-- Lexicographic comparison of cells (Python tuple comparison). -/
def cellLt (a b : Cell) : Bool :=
  decide (a.1 < b.1) || (decide (a.1 = b.1) && decide (a.2 < b.2))

/-- Lexicographic comparison of heap entries (Python tuple comparison used by
`heapq`). -/
def entryLt (a b : AEntry) : Bool :=
  decide (a.1 < b.1) || (decide (a.1 = b.1) &&
    (decide (a.2.1 < b.2.1) || (decide (a.2.1 = b.2.1) && cellLt a.2.2 b.2.2)))

/-- The minimum entry of `e :: l` in `entryLt` order (first minimal wins). -/
def findMinEntry (e : AEntry) (l : List AEntry) : AEntry :=
  l.foldl (fun best x => if entryLt x best then x else best) e

/-- `heapq.heappop`: remove and return the smallest entry. -/
def popMin (l : List AEntry) : Option (AEntry × List AEntry) :=
  match l with
  | [] => none
  | x :: xs =>
      let m := findMinEntry x xs
      some (m, (x :: xs).erase m)

/-- Pointwise function update (a dictionary/set write). -/
def updFun {β : Type} (f : Cell → β) (x : Cell) (v : β) : Cell → β :=
  fun y => if y = x then v else f y

lemma updFun_self {β : Type} (f : Cell → β) (x : Cell) (v : β) : updFun f x v x = v := by
  simp [updFun]

lemma updFun_ne {β : Type} (f : Cell → β) (x : Cell) (v : β) {y : Cell} (h : y ≠ x) :
    updFun f x v y = f y := by
  simp [updFun, h]

/-- The neighbor exploration order `[(0,1), (0,-1), (1,0), (-1,0)]` (line 524). -/
def astarDirs : List (ℤ × ℤ) := [(0, 1), (0, -1), (1, 0), (-1, 0)]

/-- The planner's mutable search state. -/
structure AState where
  openSet : List AEntry
  count : ℕ
  cameFrom : Cell → Option Cell
  gScore : Cell → WithTop ℕ
  fScore : Cell → WithTop ℕ
  openHash : Cell → Bool

/-- Relaxation of one neighbor of the popped cell (lines 524–537): bounds and
occupancy check, then `tentative_g_score = g_score[current] + 1`; on
improvement record the parent, the scores, and push the neighbor (with a fresh
tie-break counter) unless it is already in the open set. -/
def relaxNeighbor (g : Grid) (goal current : Cell) (st : AState) (d : ℤ × ℤ) : AState :=
  let neighbor : Cell := (current.1 + d.1, current.2 + d.2)
  if isValidAndClear g neighbor.1 neighbor.2 then
    let tentative := st.gScore current + 1
    if tentative < st.gScore neighbor then
      let st1 : AState :=
        { st with
          cameFrom := updFun st.cameFrom neighbor (some current)
          gScore := updFun st.gScore neighbor tentative
          fScore := updFun st.fScore neighbor
            (tentative + ((heuristic neighbor goal : ℕ) : WithTop ℕ)) }
      if st1.openHash neighbor then st1
      else
        { st1 with
          count := st1.count + 1
          openSet := st1.openSet ++ [(st1.fScore neighbor, st1.count + 1, neighbor)]
          openHash := updFun st1.openHash neighbor true }
    else st
  else st

/-- Relax all four neighbors in the source's order. -/
def relaxAll (g : Grid) (goal current : Cell) (st : AState) : AState :=
  astarDirs.foldl (relaxNeighbor g goal current) st

/-- `max_iterations = GRID_DIMENSION * GRID_DIMENSION * 1.5 = 9600`. -/
def maxIterations : ℕ := 9600

/-- The A* main loop (lines 513–537): while the open set is nonempty and the
iteration cap is not reached, pop the smallest entry, stop successfully if it
is the goal, otherwise relax its neighbors. `none` means no path was found
(exhausted open set or iteration cap). -/
def astarLoop (g : Grid) (goal : Cell) : ℕ → AState → Option AState
  | 0, _ => none
  | fuel + 1, st =>
      match popMin st.openSet with
      | none => none
      | some (e, rest) =>
          let current := e.2.2
          let st1 : AState :=
            { st with openSet := rest, openHash := updFun st.openHash current false }
          if current = goal then some st1
          else astarLoop g goal fuel (relaxAll g goal current st1)

/-- The reconstruction loop `while temp in came_from` (lines 544–548), with
fuel standing in for the loop's (proved) termination. -/
def reconstructWalk : ℕ → (Cell → Option Cell) → Cell → List Cell
  | 0, _, _ => []
  | fuel + 1, cf, temp =>
      match cf temp with
      | none => []
      | some p => temp :: reconstructWalk fuel cf p

/-- The initial search state (lines 493–507): the start cell (always the grid
center) in the open set with `f = heuristic(start, goal)` and counter 0,
`g_score[start] = 0`, everything else `inf`. -/
def initAState (goal : Cell) : AState :=
  { openSet := [(((heuristic gridCenter goal : ℕ) : WithTop ℕ), 0, gridCenter)]
    count := 0
    cameFrom := fun _ => none
    gScore := fun c => if c = gridCenter then (0 : WithTop ℕ) else ⊤
    fScore := fun c =>
      if c = gridCenter then ((heuristic gridCenter goal : ℕ) : WithTop ℕ) else ⊤
    openHash := fun c => decide (c = gridCenter) }

/-- `_plan_path_threaded` as a function from the grid and the goal to the
planner's outcome: `none` for every failure report, `some path` on success.
The goal argument is optional, mirroring `self.navigation_goal_cell`; the
validity pre-check of the goal (line 485) and the `path[0] == start` head drop
(line 551) are included. -/
def planPath (g : Grid) (goalOpt : Option Cell) : Option (List Cell) :=
  match goalOpt with
  | none => none
  | some goal =>
      if ¬ isValidAndClear g goal.1 goal.2 then none
      else
        match astarLoop g goal maxIterations (initAState goal) with
        | none => none
        | some stF =>
            let walk := reconstructWalk (maxIterations + 1) stF.cameFrom goal
            let path := walk.reverse
            some (match path with
              | [] => []
              | h :: t => if h = gridCenter then t else h :: t)

/-- One unit cardinal step between cells. -/
def adjacentCells (a b : Cell) : Prop :=
  (b.1 - a.1).natAbs + (b.2 - a.2).natAbs = 1

/-- `chainOK g prev route last`: `route` is a sequence of cells starting
adjacent to `prev`, each consecutive pair adjacent, every cell of the route
in-bounds and below the obstacle threshold, ending at `last` (`last = prev`
for the empty route). -/
def chainOK (g : Grid) : Cell → List Cell → Cell → Prop
  | prev, [], last => last = prev
  | prev, x :: xs, last =>
      adjacentCells prev x ∧ isValidAndClear g x.1 x.2 = true ∧ chainOK g x xs last

/-! ### Heap and direction basics -/

lemma astarDirs_adj {d : ℤ × ℤ} (hd : d ∈ astarDirs) (c : Cell) :
    adjacentCells c (c.1 + d.1, c.2 + d.2) := by
  simp only [astarDirs, List.mem_cons, List.not_mem_nil, or_false] at hd
  rcases hd with rfl | rfl | rfl | rfl <;> (simp only [adjacentCells]; omega)

lemma astarDirs_neighbor_ne {d : ℤ × ℤ} (hd : d ∈ astarDirs) (c : Cell) :
    ((c.1 + d.1, c.2 + d.2) : Cell) ≠ c := by
  simp only [astarDirs, List.mem_cons, List.not_mem_nil, or_false] at hd
  rcases hd with rfl | rfl | rfl | rfl <;>
    (intro h; rw [Prod.ext_iff] at h; obtain ⟨h1, h2⟩ := h; omega)

lemma findMinEntry_mem (e : AEntry) (l : List AEntry) : findMinEntry e l ∈ e :: l := by
  induction l generalizing e with
  | nil => simp [findMinEntry]
  | cons x xs ih =>
      show List.foldl _ _ (x :: xs) ∈ _
      rw [List.foldl_cons]
      rcases List.mem_cons.mp (ih (if entryLt x e = true then x else e)) with h | h
      · rw [show findMinEntry (if entryLt x e = true then x else e) xs =
            List.foldl (fun best y => if entryLt y best = true then y else best)
              (if entryLt x e = true then x else e) xs from rfl] at h
        rw [h]
        split
        · exact List.mem_cons_of_mem _ (List.mem_cons_self _ _)
        · exact List.mem_cons_self _ _
      · exact List.mem_cons_of_mem _ (List.mem_cons_of_mem _ h)

lemma popMin_mem {l : List AEntry} {e : AEntry} {rest : List AEntry}
    (h : popMin l = some (e, rest)) : e ∈ l := by
  cases l with
  | nil => simp [popMin] at h
  | cons x xs =>
      simp only [popMin, Option.some.injEq, Prod.mk.injEq] at h
      rw [← h.1]
      exact findMinEntry_mem x xs

lemma popMin_rest_sub {l : List AEntry} {e : AEntry} {rest : List AEntry}
    (h : popMin l = some (e, rest)) : ∀ x ∈ rest, x ∈ l := by
  cases l with
  | nil => simp [popMin] at h
  | cons x xs =>
      simp only [popMin, Option.some.injEq, Prod.mk.injEq] at h
      intro y hy
      rw [← h.2] at hy
      exact List.erase_subset _ _ hy

/-! ### The safety invariant (C1)

Invariant over the search state: every `came_from` key passed the
validity/occupancy check and is adjacent to its parent; `g_score` strictly
decreases from child to parent; the only finite-score cell without a parent is
the start; every open-set entry has a finite score; and all finite scores are
bounded by the number of pops so far. -/

structure AInv (g : Grid) (st : AState) (k : ℕ) : Prop where
  parentAdj : ∀ n c : Cell, st.cameFrom n = some c →
    isValidAndClear g n.1 n.2 = true ∧ adjacentCells c n
  parentG : ∀ n c : Cell, st.cameFrom n = some c →
    ∃ a b : ℕ, st.gScore n = (a : WithTop ℕ) ∧ st.gScore c = (b : WithTop ℕ) ∧ b < a
  rootOnly : ∀ n : Cell, st.gScore n ≠ ⊤ → st.cameFrom n = none → n = gridCenter
  openG : ∀ e ∈ st.openSet, st.gScore e.2.2 ≠ ⊤
  gBound : ∀ (n : Cell) (a : ℕ), st.gScore n = (a : WithTop ℕ) → a ≤ k

lemma AInv.mono {g : Grid} {st : AState} {k k' : ℕ} (h : AInv g st k) (hk : k ≤ k') :
    AInv g st k' :=
  ⟨h.parentAdj, h.parentG, h.rootOnly, h.openG,
    fun n a ha => le_trans (h.gBound n a ha) hk⟩

lemma AInv_init (g : Grid) (goal : Cell) : AInv g (initAState goal) 0 := by
  refine ⟨?_, ?_, ?_, ?_, ?_⟩
  · intro n c h
    simp [initAState] at h
  · intro n c h
    simp [initAState] at h
  · intro n hg _
    by_cases hn : n = gridCenter
    · exact hn
    · exfalso
      apply hg
      simp only [initAState]
      rw [if_neg hn]
  · intro e he
    simp only [initAState, List.mem_singleton] at he
    subst he
    simp [initAState]
  · intro n a h
    simp only [initAState] at h
    by_cases hn : n = gridCenter
    · rw [if_pos hn] at h
      have : a = 0 := by exact_mod_cast h.symm
      omega
    · rw [if_neg hn] at h
      exact absurd h.symm WithTop.coe_ne_top

/-- Preservation of the invariant by the score/parent assignment performed on
an improving relaxation. `st'` is any state whose `came_from` and `g_score`
are the updated maps and whose open set only grew by entries for `nb`. -/
lemma AInv_update (g : Grid) (st st' : AState) (k : ℕ) (current nb : Cell)
    (hcf : st'.cameFrom = updFun st.cameFrom nb (some current))
    (hgs : st'.gScore = updFun st.gScore nb (st.gScore current + 1))
    (hopen : ∀ e ∈ st'.openSet, e ∈ st.openSet ∨ e.2.2 = nb)
    (hinv : AInv g st (k + 1))
    (hval : isValidAndClear g nb.1 nb.2 = true)
    (hadj : adjacentCells current nb)
    (hne : nb ≠ current)
    (hlt : st.gScore current + 1 < st.gScore nb)
    (hcur : ∀ b : ℕ, st.gScore current = (b : WithTop ℕ) → b ≤ k) :
    AInv g st' (k + 1) := by
  have htne : st.gScore current + 1 ≠ ⊤ := ne_top_of_lt hlt
  have hcne : st.gScore current ≠ ⊤ := by
    intro hc
    apply htne
    rw [hc]
    rfl
  obtain ⟨b, hb⟩ := WithTop.ne_top_iff_exists.mp hcne
  have hbk : b ≤ k := hcur b hb.symm
  have htent : st.gScore current + 1 = ((b + 1 : ℕ) : WithTop ℕ) := by
    rw [← hb]
    norm_cast
  refine ⟨?_, ?_, ?_, ?_, ?_⟩
  · intro n c h
    rw [hcf] at h
    by_cases hn : n = nb
    · subst hn
      rw [updFun_self] at h
      cases h
      exact ⟨hval, hadj⟩
    · rw [updFun_ne _ _ _ hn] at h
      exact hinv.parentAdj n c h
  · intro n c h
    rw [hcf] at h
    rw [hgs]
    by_cases hn : n = nb
    · subst hn
      rw [updFun_self] at h
      cases h
      refine ⟨b + 1, b, ?_, ?_, Nat.lt_succ_self b⟩
      · rw [updFun_self]
        exact htent
      · rw [updFun_ne _ _ _ (fun hcc => hne hcc.symm)]
        exact hb.symm
    · rw [updFun_ne _ _ _ hn] at h
      obtain ⟨a0, b0, ha0, hb0, hlt0⟩ := hinv.parentG n c h
      by_cases hc : c = nb
      · subst hc
        have hblt : (b + 1 : ℕ) < b0 := by
          rw [hb0, htent] at hlt
          exact_mod_cast hlt
        refine ⟨a0, b + 1, ?_, ?_, ?_⟩
        · rw [updFun_ne _ _ _ hn]
          exact ha0
        · rw [updFun_self]
          exact htent
        · omega
      · refine ⟨a0, b0, ?_, ?_, hlt0⟩
        · rw [updFun_ne _ _ _ hn]
          exact ha0
        · rw [updFun_ne _ _ _ hc]
          exact hb0
  · intro n hgn hcn
    rw [hcf] at hcn
    by_cases hn : n = nb
    · subst hn
      rw [updFun_self] at hcn
      exact Option.noConfusion hcn
    · rw [updFun_ne _ _ _ hn] at hcn
      rw [hgs, updFun_ne _ _ _ hn] at hgn
      exact hinv.rootOnly n hgn hcn
  · intro e he
    rw [hgs]
    rcases hopen e he with hmem | hcell
    · by_cases hn : e.2.2 = nb
      · rw [hn, updFun_self]
        exact htne
      · rw [updFun_ne _ _ _ hn]
        exact hinv.openG e hmem
    · rw [hcell, updFun_self]
      exact htne
  · intro n a h
    rw [hgs] at h
    by_cases hn : n = nb
    · subst hn
      rw [updFun_self, htent] at h
      have : b + 1 = a := by exact_mod_cast h
      omega
    · rw [updFun_ne _ _ _ hn] at h
      exact hinv.gBound n a h

lemma relaxNeighbor_pres (g : Grid) (goal current : Cell) (st : AState) (d : ℤ × ℤ)
    (hd : d ∈ astarDirs) (k : ℕ) (hinv : AInv g st (k + 1))
    (hcur : ∀ b : ℕ, st.gScore current = (b : WithTop ℕ) → b ≤ k) :
    AInv g (relaxNeighbor g goal current st d) (k + 1) ∧
    (relaxNeighbor g goal current st d).gScore current = st.gScore current := by
  have hne : ((current.1 + d.1, current.2 + d.2) : Cell) ≠ current :=
    astarDirs_neighbor_ne hd current
  have hadj : adjacentCells current (current.1 + d.1, current.2 + d.2) :=
    astarDirs_adj hd current
  simp only [relaxNeighbor]
  split
  · split
    · rename_i hval hlt
      split
      · constructor
        · exact AInv_update g st _ k current _ rfl rfl (fun e he => Or.inl he)
            hinv hval hadj hne hlt hcur
        · exact updFun_ne _ _ _ (Ne.symm hne)
      · constructor
        · refine AInv_update g st _ k current _ rfl rfl ?_ hinv hval hadj hne hlt hcur
          intro e he
          rcases List.mem_append.mp he with hmem | hnew
          · exact Or.inl hmem
          · rw [List.mem_singleton.mp hnew]
            exact Or.inr rfl
        · exact updFun_ne _ _ _ (Ne.symm hne)
    · exact ⟨hinv, rfl⟩
  · exact ⟨hinv, rfl⟩

lemma relaxFold_pres (g : Grid) (goal current : Cell) (ds : List (ℤ × ℤ))
    (hds : ∀ d ∈ ds, d ∈ astarDirs) (k : ℕ) :
    ∀ st : AState, AInv g st (k + 1) →
      (∀ b : ℕ, st.gScore current = (b : WithTop ℕ) → b ≤ k) →
      AInv g (ds.foldl (relaxNeighbor g goal current) st) (k + 1) := by
  induction ds with
  | nil => intro st h _; exact h
  | cons d ds ih =>
      intro st h hc
      obtain ⟨h', hg⟩ := relaxNeighbor_pres g goal current st d
        (hds d (List.mem_cons_self _ _)) k h hc
      rw [List.foldl_cons]
      exact ih (fun d' hd' => hds d' (List.mem_cons_of_mem _ hd')) _ h'
        (fun b hb => hc b (hg ▸ hb))

lemma AInv_pop {g : Grid} {st : AState} {k : ℕ} {e : AEntry} {rest : List AEntry}
    (hinv : AInv g st k) (hpop : popMin st.openSet = some (e, rest)) :
    AInv g { st with openSet := rest, openHash := updFun st.openHash e.2.2 false } k :=
  ⟨hinv.parentAdj, hinv.parentG, hinv.rootOnly,
    fun e' he' => hinv.openG e' (popMin_rest_sub hpop e' he'), hinv.gBound⟩

lemma astarLoop_safety (g : Grid) (goal : Cell) :
    ∀ (fuel k : ℕ) (st : AState), AInv g st k → k + fuel ≤ maxIterations →
      ∀ stF, astarLoop g goal fuel st = some stF →
        AInv g stF maxIterations ∧
        ∃ a : ℕ, a ≤ maxIterations ∧ stF.gScore goal = (a : WithTop ℕ) := by
  intro fuel
  induction fuel with
  | zero =>
      intro k st _ _ stF h
      simp [astarLoop] at h
  | succ fuel ih =>
      intro k st hinv hk stF h
      simp only [astarLoop] at h
      cases hpop : popMin st.openSet with
      | none =>
          rw [hpop] at h
          simp at h
      | some pr =>
          obtain ⟨e, rest⟩ := pr
          rw [hpop] at h
          dsimp only at h
          by_cases hgoal : e.2.2 = goal
          · rw [if_pos hgoal] at h
            simp only [Option.some.injEq] at h
            subst h
            have hinv1 := AInv_pop hinv hpop
            refine ⟨hinv1.mono (by omega), ?_⟩
            have hne := hinv.openG e (popMin_mem hpop)
            rw [hgoal] at hne
            obtain ⟨a, ha⟩ := WithTop.ne_top_iff_exists.mp hne
            exact ⟨a, le_trans (hinv.gBound goal a ha.symm) (by omega), ha.symm⟩
          · rw [if_neg hgoal] at h
            have hinv1 := AInv_pop hinv hpop
            have hcur : ∀ b : ℕ,
                ({ st with
                    openSet := rest
                    openHash := updFun st.openHash e.2.2 false } : AState).gScore e.2.2
                  = (b : WithTop ℕ) → b ≤ k :=
              fun b hb => hinv.gBound e.2.2 b hb
            have hinv2 := relaxFold_pres g goal e.2.2 astarDirs (fun _ hd => hd) k _
              (hinv1.mono (Nat.le_succ k)) hcur
            exact ih (k + 1) _ hinv2 (by omega) stF h

/-! ### Path reconstruction produces a valid route -/

lemma chainOK_append_one (g : Grid) (s : Cell) (L : List Cell) (e x : Cell)
    (h : chainOK g s L e) (hadj : adjacentCells e x)
    (hval : isValidAndClear g x.1 x.2 = true) :
    chainOK g s (L ++ [x]) x := by
  induction L generalizing s with
  | nil =>
      obtain rfl := h
      exact ⟨hadj, hval, rfl⟩
  | cons y ys ih =>
      obtain ⟨h1, h2, h3⟩ := h
      exact ⟨h1, h2, ih y h3⟩

/-- Walking the `came_from` parents from any finite-score cell yields (after
reversal) a valid route from the grid center to that cell, provided the fuel
exceeds the cell's score (the score strictly decreases along parents). -/
lemma reconstructWalk_chain (g : Grid) (cf : Cell → Option Cell) (gs : Cell → WithTop ℕ)
    (hAdj : ∀ n c, cf n = some c →
      isValidAndClear g n.1 n.2 = true ∧ adjacentCells c n)
    (hG : ∀ n c, cf n = some c →
      ∃ a b : ℕ, gs n = (a : WithTop ℕ) ∧ gs c = (b : WithTop ℕ) ∧ b < a)
    (hRoot : ∀ n, gs n ≠ ⊤ → cf n = none → n = gridCenter) :
    ∀ (fuel : ℕ) (temp : Cell) (a : ℕ), gs temp = (a : WithTop ℕ) → a < fuel →
      chainOK g gridCenter ((reconstructWalk fuel cf temp).reverse) temp := by
  intro fuel
  induction fuel with
  | zero => intro temp a _ ha; omega
  | succ fuel ih =>
      intro temp a hga ha
      cases hcf : cf temp with
      | none =>
          have hc : temp = gridCenter :=
            hRoot temp (by rw [hga]; exact WithTop.coe_ne_top) hcf
          show chainOK g gridCenter (reconstructWalk (fuel + 1) cf temp).reverse temp
          simp only [reconstructWalk, hcf, List.reverse_nil]
          exact hc
      | some p =>
          obtain ⟨hval, hadj⟩ := hAdj temp p hcf
          obtain ⟨a', b, hga', hgp, hlt⟩ := hG temp p hcf
          have haa : a' = a := by
            rw [hga] at hga'
            exact_mod_cast hga'.symm
          have hchain := ih p b hgp (by omega)
          show chainOK g gridCenter (reconstructWalk (fuel + 1) cf temp).reverse temp
          simp only [reconstructWalk, hcf, List.reverse_cons]
          exact chainOK_append_one g gridCenter _ p temp hchain hadj hval

lemma adjacentCells_irrefl (c : Cell) : ¬ adjacentCells c c := by
  simp [adjacentCells]

/-- C1. For every occupancy grid and every goal cell, the planner never
returns a path traversing an occupied cell (confidence ≥ `RENDER_THRESHOLD`)
or an out-of-bounds cell: any returned path is a 4-connected route of valid,
clear cells from the grid center to the goal. Consequently, if every route
from the grid center to the goal is blocked, the planner reports no path
rather than an invalid route. -/
theorem planner_safety_C1 (g : Grid) (goalOpt : Option Cell) :
    (∀ path, planPath g goalOpt = some path →
      ∃ goal, goalOpt = some goal ∧ chainOK g gridCenter path goal) ∧
    (∀ goal, goalOpt = some goal → (¬ ∃ path, chainOK g gridCenter path goal) →
      planPath g goalOpt = none) := by
  have main : ∀ path, planPath g goalOpt = some path →
      ∃ goal, goalOpt = some goal ∧ chainOK g gridCenter path goal := by
    intro path hp
    cases goalOpt with
    | none => simp [planPath] at hp
    | some goal =>
        refine ⟨goal, rfl, ?_⟩
        simp only [planPath] at hp
        by_cases hv : isValidAndClear g goal.1 goal.2 = true
        · rw [if_neg (not_not_intro hv)] at hp
          cases hloop : astarLoop g goal maxIterations (initAState goal) with
          | none => rw [hloop] at hp; simp at hp
          | some stF =>
              rw [hloop] at hp
              dsimp only at hp
              obtain ⟨hinvF, a, hamax, hga⟩ :=
                astarLoop_safety g goal maxIterations 0 (initAState goal)
                  (AInv_init g goal) (by omega) stF hloop
              have hchain := reconstructWalk_chain g stF.cameFrom stF.gScore
                hinvF.parentAdj hinvF.parentG hinvF.rootOnly
                (maxIterations + 1) goal a hga (by omega)
              simp only [Option.some.injEq] at hp
              subst hp
              cases hwalk : (reconstructWalk (maxIterations + 1) stF.cameFrom goal).reverse with
              | nil =>
                  rw [hwalk] at hchain
                  exact hchain
              | cons hHead t =>
                  rw [hwalk] at hchain
                  by_cases hh : hHead = gridCenter
                  · exfalso
                    obtain ⟨hadj, _, _⟩ := hchain
                    rw [hh] at hadj
                    exact adjacentCells_irrefl gridCenter hadj
                  · dsimp only
                    rw [if_neg hh]
                    exact hchain
        · rw [if_pos hv] at hp
          exact Option.noConfusion hp
  refine ⟨main, ?_⟩
  intro goal hg hno
  cases hres : planPath g goalOpt with
  | none => rfl
  | some path =>
      obtain ⟨goal', hg', hchain⟩ := main path hres
      rw [hg] at hg'
      cases hg'
      exact absurd ⟨path, hchain⟩ hno

/-- Witness for C1 at a concrete input: on the empty grid with the goal one
cell east of center, the planner returns the one-step path, which is a valid
clear route from the center to the goal. -/
theorem planner_safety_C1_witness :
    planPath zeroGrid (some ((40 : ℤ), (41 : ℤ))) = some [((40 : ℤ), (41 : ℤ))] ∧
    ∃ goal, some ((40 : ℤ), (41 : ℤ)) = some goal ∧
      chainOK zeroGrid gridCenter [((40 : ℤ), (41 : ℤ))] goal := by
  have hrun : planPath zeroGrid (some ((40 : ℤ), (41 : ℤ)))
      = some [((40 : ℤ), (41 : ℤ))] := by decide
  exact ⟨hrun, (planner_safety_C1 zeroGrid (some ((40 : ℤ), (41 : ℤ)))).1 _ hrun⟩

/-! ### Geometry of the empty grid (towards C2)

On a grid with no obstacles, `_is_valid_and_clear` reduces to the bounds check,
and A* with the Manhattan heuristic is governed by the "box" of cells lying on
some shortest route between the center and the goal. -/

/-- In-bounds cell. -/
def inB (x : Cell) : Prop :=
  0 ≤ x.1 ∧ x.1 < GRID_DIMENSION ∧ 0 ≤ x.2 ∧ x.2 < GRID_DIMENSION

instance (x : Cell) : Decidable (inB x) := by
  unfold inB
  infer_instance

lemma zeroGrid_valid_iff (x : Cell) : isValidAndClear zeroGrid x.1 x.2 = true ↔ inB x := by
  rw [isValidAndClear_iff]
  unfold inB zeroGrid RENDER_THRESHOLD
  norm_num

/-- On a grid with no occupied cells (every value below `RENDER_THRESHOLD`),
the planner's validity/occupancy check reduces to the bounds check. -/
lemma clear_valid_iff {g : Grid} (hg : ∀ r c : ℤ, g r c < RENDER_THRESHOLD) (x : Cell) :
    isValidAndClear g x.1 x.2 = true ↔ inB x := by
  rw [isValidAndClear_iff]
  unfold inB
  constructor
  · rintro ⟨h1, h2, h3, h4, _⟩
    exact ⟨h1, h2, h3, h4⟩
  · rintro ⟨h1, h2, h3, h4⟩
    exact ⟨h1, h2, h3, h4, hg x.1 x.2⟩

set_option maxHeartbeats 1000000

/-- `x` lies on a shortest route between the center and the goal. -/
def onBox (goal x : Cell) : Prop :=
  heuristic gridCenter x + heuristic x goal = heuristic gridCenter goal

lemma heuristic_self (x : Cell) : heuristic x x = 0 := by
  simp [heuristic]

lemma heuristic_eq_zero {x goal : Cell} (h : heuristic x goal = 0) : x = goal := by
  unfold heuristic at h
  rw [Prod.ext_iff]
  omega

lemma heuristic_triangle (a b c : Cell) : heuristic a c ≤ heuristic a b + heuristic b c := by
  unfold heuristic
  omega

lemma adjacent_dist_cases {s a b : Cell} (h : adjacentCells a b) :
    heuristic s b = heuristic s a + 1 ∨ heuristic s a = heuristic s b + 1 := by
  unfold adjacentCells at h
  unfold heuristic
  omega

lemma adjacent_dist_le {s a b : Cell} (h : adjacentCells a b) :
    heuristic s b ≤ heuristic s a + 1 ∧ heuristic s a ≤ heuristic s b + 1 := by
  unfold adjacentCells at h
  unfold heuristic
  omega

lemma adjacent_exists_dir {p x : Cell} (h : adjacentCells p x) :
    ∃ d ∈ astarDirs, x = (p.1 + d.1, p.2 + d.2) := by
  unfold adjacentCells at h
  have hcases : (x.1 = p.1 + 1 ∧ x.2 = p.2) ∨ (x.1 = p.1 - 1 ∧ x.2 = p.2) ∨
      (x.1 = p.1 ∧ x.2 = p.2 + 1) ∨ (x.1 = p.1 ∧ x.2 = p.2 - 1) := by omega
  rcases hcases with ⟨h1, h2⟩ | ⟨h1, h2⟩ | ⟨h1, h2⟩ | ⟨h1, h2⟩
  · exact ⟨(1, 0), by simp [astarDirs], by rw [Prod.ext_iff]; exact ⟨h1, by simpa using h2⟩⟩
  · exact ⟨(-1, 0), by simp [astarDirs], by rw [Prod.ext_iff]; exact ⟨h1, by simpa using h2⟩⟩
  · exact ⟨(0, 1), by simp [astarDirs], by rw [Prod.ext_iff]; exact ⟨by simpa using h1, h2⟩⟩
  · exact ⟨(0, -1), by simp [astarDirs], by rw [Prod.ext_iff]; exact ⟨by simpa using h1, h2⟩⟩

/-- Any dist-decreasing neighbor of a box cell is itself a box cell. -/
lemma box_adj_pred {goal cur nb : Cell} (hbox : onBox goal cur) (hadj : adjacentCells cur nb)
    (hd : heuristic gridCenter nb + 1 = heuristic gridCenter cur) : onBox goal nb := by
  unfold onBox at hbox ⊢
  unfold adjacentCells at hadj
  unfold heuristic at hbox hd ⊢
  omega

/-- A box cell other than the goal has a box neighbor one step closer to the
goal (step along a coordinate where it still differs from the goal). -/
lemma box_step_toward_goal {goal x : Cell} (hbox : onBox goal x) (hne : x ≠ goal) :
    ∃ y : Cell, adjacentCells x y ∧ onBox goal y ∧
      heuristic gridCenter y = heuristic gridCenter x + 1 ∧
      heuristic y goal + 1 = heuristic x goal := by
  have hxy : x.1 ≠ goal.1 ∨ x.2 ≠ goal.2 := by
    by_contra hc
    push_neg at hc
    exact hne (Prod.ext hc.1 hc.2)
  unfold onBox at hbox
  rcases hxy with hx | hx
  · rcases lt_or_gt_of_ne hx with hlt | hgt
    · refine ⟨(x.1 + 1, x.2), ?_, ?_, ?_, ?_⟩ <;>
        (simp only [adjacentCells, onBox, heuristic, gridCenter] at hbox ⊢ <;> omega)
    · refine ⟨(x.1 - 1, x.2), ?_, ?_, ?_, ?_⟩ <;>
        (simp only [adjacentCells, onBox, heuristic, gridCenter] at hbox ⊢ <;> omega)
  · rcases lt_or_gt_of_ne hx with hlt | hgt
    · refine ⟨(x.1, x.2 + 1), ?_, ?_, ?_, ?_⟩ <;>
        (simp only [adjacentCells, onBox, heuristic, gridCenter] at hbox ⊢ <;> omega)
    · refine ⟨(x.1, x.2 - 1), ?_, ?_, ?_, ?_⟩ <;>
        (simp only [adjacentCells, onBox, heuristic, gridCenter] at hbox ⊢ <;> omega)

/-- A box cell other than the start has a box neighbor one step closer to the
start. -/
lemma box_parent_exists {goal x : Cell} (hbox : onBox goal x) (hne : x ≠ gridCenter) :
    ∃ p : Cell, adjacentCells p x ∧ onBox goal p ∧
      heuristic gridCenter x = heuristic gridCenter p + 1 := by
  have hxy : x.1 ≠ gridCenter.1 ∨ x.2 ≠ gridCenter.2 := by
    by_contra hc
    push_neg at hc
    exact hne (Prod.ext hc.1 hc.2)
  unfold onBox at hbox
  rcases hxy with hx | hx
  · rcases lt_or_gt_of_ne hx with hlt | hgt
    · refine ⟨(x.1 + 1, x.2), ?_, ?_, ?_⟩ <;>
        (simp only [adjacentCells, onBox, heuristic, gridCenter] at hbox hlt ⊢ <;> omega)
    · refine ⟨(x.1 - 1, x.2), ?_, ?_, ?_⟩ <;>
        (simp only [adjacentCells, onBox, heuristic, gridCenter] at hbox hgt ⊢ <;> omega)
  · rcases lt_or_gt_of_ne hx with hlt | hgt
    · refine ⟨(x.1, x.2 + 1), ?_, ?_, ?_⟩ <;>
        (simp only [adjacentCells, onBox, heuristic, gridCenter] at hbox hlt ⊢ <;> omega)
    · refine ⟨(x.1, x.2 - 1), ?_, ?_, ?_⟩ <;>
        (simp only [adjacentCells, onBox, heuristic, gridCenter] at hbox hgt ⊢ <;> omega)

/-- Box cells are in bounds when the goal is (their coordinates lie between
the center's and the goal's). -/
lemma box_inB {goal x : Cell} (hg : inB goal) (hbox : onBox goal x) : inB x := by
  unfold onBox heuristic at hbox
  unfold inB GRID_DIMENSION at hg ⊢
  simp only [gridCenter] at hbox
  omega

lemma h_eq_zero_iff_goal {goal x : Cell} : heuristic x goal = 0 ↔ x = goal := by
  constructor
  · exact heuristic_eq_zero
  · intro h
    subst h
    exact heuristic_self x

/-! ### Heap order facts -/

lemma entryLt_iff (a b : AEntry) : entryLt a b = true ↔
    (a.1 < b.1 ∨ (a.1 = b.1 ∧ (a.2.1 < b.2.1 ∨ (a.2.1 = b.2.1 ∧
      (a.2.2.1 < b.2.2.1 ∨ (a.2.2.1 = b.2.2.1 ∧ a.2.2.2 < b.2.2.2)))))) := by
  simp [entryLt, cellLt, Bool.or_eq_true, Bool.and_eq_true, decide_eq_true_iff]

lemma entryLt_irrefl (a : AEntry) : entryLt a a = false := by
  rw [Bool.eq_false_iff]
  intro h
  rw [entryLt_iff] at h
  rcases h with h | ⟨_, h | ⟨_, h | ⟨_, h⟩⟩⟩ <;> exact lt_irrefl _ h

lemma entryLt_trans {a b c : AEntry} (hab : entryLt a b = true) (hbc : entryLt b c = true) :
    entryLt a c = true := by
  rw [entryLt_iff] at hab hbc ⊢
  rcases hab with h1 | ⟨e1, hab⟩
  · rcases hbc with h2 | ⟨e2, _⟩
    · exact Or.inl (lt_trans h1 h2)
    · exact Or.inl (e2 ▸ h1)
  · rcases hbc with h2 | ⟨e2, hbc⟩
    · exact Or.inl (e1 ▸ h2)
    · refine Or.inr ⟨e1.trans e2, ?_⟩
      rcases hab with h1 | ⟨f1, hab⟩
      · rcases hbc with h2 | ⟨f2, _⟩
        · exact Or.inl (lt_trans h1 h2)
        · exact Or.inl (f2 ▸ h1)
      · rcases hbc with h2 | ⟨f2, hbc⟩
        · exact Or.inl (f1 ▸ h2)
        · refine Or.inr ⟨f1.trans f2, ?_⟩
          rcases hab with h1 | ⟨g1, hab⟩
          · rcases hbc with h2 | ⟨g2, _⟩
            · exact Or.inl (lt_trans h1 h2)
            · exact Or.inl (g2 ▸ h1)
          · rcases hbc with h2 | ⟨g2, hbc⟩
            · exact Or.inl (g1 ▸ h2)
            · exact Or.inr ⟨g1.trans g2, lt_trans hab hbc⟩

lemma entryLt_total (a b : AEntry) :
    entryLt a b = true ∨ entryLt b a = true ∨ a = b := by
  rcases lt_trichotomy a.1 b.1 with h1 | h1 | h1
  · exact Or.inl ((entryLt_iff a b).mpr (Or.inl h1))
  · rcases lt_trichotomy a.2.1 b.2.1 with h2 | h2 | h2
    · exact Or.inl ((entryLt_iff a b).mpr (Or.inr ⟨h1, Or.inl h2⟩))
    · rcases lt_trichotomy a.2.2.1 b.2.2.1 with h3 | h3 | h3
      · exact Or.inl ((entryLt_iff a b).mpr (Or.inr ⟨h1, Or.inr ⟨h2, Or.inl h3⟩⟩))
      · rcases lt_trichotomy a.2.2.2 b.2.2.2 with h4 | h4 | h4
        · exact Or.inl ((entryLt_iff a b).mpr
            (Or.inr ⟨h1, Or.inr ⟨h2, Or.inr ⟨h3, h4⟩⟩⟩))
        · refine Or.inr (Or.inr ?_)
          obtain ⟨af, ac, ar, acol⟩ := a
          obtain ⟨bf, bc, br, bcol⟩ := b
          simp only at h1 h2 h3 h4
          rw [h1, h2, h3, h4]
        · exact Or.inr (Or.inl ((entryLt_iff b a).mpr
            (Or.inr ⟨h1.symm, Or.inr ⟨h2.symm, Or.inr ⟨h3.symm, h4⟩⟩⟩)))
      · exact Or.inr (Or.inl ((entryLt_iff b a).mpr
          (Or.inr ⟨h1.symm, Or.inr ⟨h2.symm, Or.inl h3⟩⟩)))
    · exact Or.inr (Or.inl ((entryLt_iff b a).mpr (Or.inr ⟨h1.symm, Or.inl h2⟩)))
  · exact Or.inr (Or.inl ((entryLt_iff b a).mpr (Or.inl h1)))

lemma findMinEntry_not_lt (e : AEntry) (l : List AEntry) :
    ∀ x ∈ e :: l, entryLt x (findMinEntry e l) = false := by
  induction l generalizing e with
  | nil =>
      intro x hx
      rw [List.mem_singleton] at hx
      subst hx
      exact entryLt_irrefl _
  | cons y ys ih =>
      intro x hx
      by_cases hye : entryLt y e = true
      · have hgoal : findMinEntry e (y :: ys) = findMinEntry y ys := by
          simp only [findMinEntry, List.foldl_cons, if_pos hye]
        rw [hgoal]
        have hmin := ih y
        have hseed : entryLt y (findMinEntry y ys) = false :=
          hmin y (List.mem_cons_self _ _)
        rcases List.mem_cons.mp hx with heq | hx2
        · cases heq
          rw [Bool.eq_false_iff]
          intro hlt
          rcases entryLt_total y (findMinEntry y ys) with h | h | h
          · rw [hseed] at h
            exact Bool.noConfusion h
          · have hcl := entryLt_trans (entryLt_trans hlt h) hye
            rw [entryLt_irrefl] at hcl
            exact Bool.noConfusion hcl
          · have hlt2 : entryLt e y = true := by
              rw [h]
              exact hlt
            have hcl := entryLt_trans hlt2 hye
            rw [entryLt_irrefl] at hcl
            exact Bool.noConfusion hcl
        · rcases List.mem_cons.mp hx2 with heq | hx3
          · cases heq
            exact hseed
          · exact hmin x (List.mem_cons_of_mem _ hx3)
      · have hgoal : findMinEntry e (y :: ys) = findMinEntry e ys := by
          simp only [findMinEntry, List.foldl_cons, if_neg hye]
        rw [hgoal]
        have hmin := ih e
        have hseed : entryLt e (findMinEntry e ys) = false :=
          hmin e (List.mem_cons_self _ _)
        rcases List.mem_cons.mp hx with heq | hx2
        · cases heq
          exact hseed
        · rcases List.mem_cons.mp hx2 with heq | hx3
          · cases heq
            rw [Bool.eq_false_iff]
            intro hlt
            rcases entryLt_total e (findMinEntry e ys) with h | h | h
            · rw [hseed] at h
              exact Bool.noConfusion h
            · exact hye (entryLt_trans hlt h)
            · apply hye
              rw [h]
              exact hlt
          · exact hmin x (List.mem_cons_of_mem _ hx3)

lemma popMin_not_lt {l : List AEntry} {e : AEntry} {rest : List AEntry}
    (h : popMin l = some (e, rest)) : ∀ x ∈ l, entryLt x e = false := by
  cases l with
  | nil => simp [popMin] at h
  | cons x xs =>
      simp only [popMin, Option.some.injEq, Prod.mk.injEq] at h
      intro y hy
      rw [← h.1]
      exact findMinEntry_not_lt x xs y hy

/-! ### Closed cells and the box measure -/

/-- Distance from the start (the grid center). -/
def dC (x : Cell) : ℕ := heuristic gridCenter x

/-- Heuristic distance to the goal. -/
def dGoal (goal x : Cell) : ℕ := heuristic x goal

/-- A cell that has been popped: it has a finite score and is no longer in the
open set. (In this run, cells enter the open set exactly when first scored and
leave it only by being popped.) -/
def isClosed (st : AState) (x : Cell) : Prop :=
  st.gScore x ≠ ⊤ ∧ st.openHash x = false

/-- Complement of `isClosed`, phrased positively for decidability. -/
def notClosedP (st : AState) (x : Cell) : Prop :=
  st.gScore x = ⊤ ∨ st.openHash x = true

instance (st : AState) (x : Cell) : Decidable (notClosedP st x) := by
  unfold notClosedP
  infer_instance

lemma notClosedP_iff (st : AState) (x : Cell) : notClosedP st x ↔ ¬ isClosed st x := by
  unfold notClosedP isClosed
  rcases Bool.eq_false_or_eq_true (st.openHash x) with h | h <;> simp [h]

/-- The cells lying on some shortest center→goal route, as a finite set. -/
def boxFinset (goal : Cell) : Finset Cell :=
  (Finset.Icc (min gridCenter.1 goal.1) (max gridCenter.1 goal.1)) ×ˢ
    (Finset.Icc (min gridCenter.2 goal.2) (max gridCenter.2 goal.2))

lemma mem_boxFinset {goal x : Cell} : x ∈ boxFinset goal ↔ onBox goal x := by
  unfold boxFinset onBox heuristic
  rw [Finset.mem_product, Finset.mem_Icc, Finset.mem_Icc]
  simp only [gridCenter]
  omega

lemma boxFinset_card_le (goal : Cell) (hg : inB goal) : (boxFinset goal).card ≤ 6561 := by
  unfold inB GRID_DIMENSION at hg
  unfold boxFinset
  rw [Finset.card_product, Int.card_Icc, Int.card_Icc]
  have hc1 : gridCenter.1 = 40 := rfl
  have hc2 : gridCenter.2 = 40 := rfl
  rw [hc1, hc2]
  have h1 : ((40 : ℤ) ⊔ goal.1 + 1 - 40 ⊓ goal.1).toNat ≤ 81 := by omega
  have h2 : ((40 : ℤ) ⊔ goal.2 + 1 - 40 ⊓ goal.2).toNat ≤ 81 := by omega
  exact le_trans (Nat.mul_le_mul h1 h2) (by norm_num)

/-- The termination measure of the main loop on an obstacle-free grid: the
number of box cells not yet popped. -/
def unclosedBox (goal : Cell) (st : AState) : ℕ :=
  ((boxFinset goal).filter (notClosedP st)).card

/-! ### The empty-grid invariant (towards C2)

`EInv` holds at the top of every loop iteration of the planner run on the
all-zero grid. Its crucial consequences: every assigned `g_score` is already
the exact start distance (so scores are assigned once and never improved, and
stored `f` keys are never stale), the open set always holds an entry with key
equal to the optimal cost while the goal is unpopped (so the loop cannot
terminate early), and box cells are popped in nondecreasing start-distance
order (so assignments to fresh box cells are optimal). -/

structure EInv (goal : Cell) (st : AState) : Prop where
  gOpt : ∀ (x : Cell) (a : ℕ), st.gScore x = (a : WithTop ℕ) → a = dC x ∧ inB x
  entryKey : ∀ e ∈ st.openSet,
    e.1 = ((dC e.2.2 + dGoal goal e.2.2 : ℕ) : WithTop ℕ) ∧
    st.gScore e.2.2 = ((dC e.2.2 : ℕ) : WithTop ℕ)
  hashIff : ∀ x : Cell, st.openHash x = true ↔ ∃ e ∈ st.openSet, e.2.2 = x
  cellsNodup : (st.openSet.map (fun e => e.2.2)).Nodup
  closedNb : ∀ x : Cell, isClosed st x → ∀ d ∈ astarDirs,
    inB (x.1 + d.1, x.2 + d.2) → st.gScore (x.1 + d.1, x.2 + d.2) ≠ ⊤
  goalOpen : ¬ isClosed st goal
  frontier : ∃ e ∈ st.openSet, e.1 = ((dC goal : ℕ) : WithTop ℕ)
  parentStep : ∀ n c : Cell, st.cameFrom n = some c → dC n = dC c + 1
  countBound : ∀ e ∈ st.openSet, e.2.1 ≤ st.count
  countOrder : ∀ e ∈ st.openSet, ∀ e2 ∈ st.openSet, onBox goal e.2.2 → onBox goal e2.2.2 →
    dC e.2.2 < dC e2.2.2 → e.2.1 < e2.2.1
  boxParent : ∀ e ∈ st.openSet, onBox goal e.2.2 → e.2.2 ≠ gridCenter →
    ∃ p : Cell, adjacentCells p e.2.2 ∧ onBox goal p ∧ dC e.2.2 = dC p + 1 ∧ isClosed st p
  closedPrefix : ∀ x y : Cell, onBox goal x → onBox goal y → isClosed st x →
    dC y < dC x → isClosed st y
  startG : st.gScore gridCenter ≠ ⊤

/-- The mid-relaxation invariant: `EInv` with the fields that momentarily
break while the popped cell `current` is having its neighbors relaxed replaced
by current-relative variants, plus the facts established at pop time. -/
structure RInv (goal current : Cell) (st : AState) : Prop where
  gOpt : ∀ (x : Cell) (a : ℕ), st.gScore x = (a : WithTop ℕ) → a = dC x ∧ inB x
  entryKey : ∀ e ∈ st.openSet,
    e.1 = ((dC e.2.2 + dGoal goal e.2.2 : ℕ) : WithTop ℕ) ∧
    st.gScore e.2.2 = ((dC e.2.2 : ℕ) : WithTop ℕ)
  hashIff : ∀ x : Cell, st.openHash x = true ↔ ∃ e ∈ st.openSet, e.2.2 = x
  cellsNodup : (st.openSet.map (fun e => e.2.2)).Nodup
  closedNbExcept : ∀ x : Cell, isClosed st x → x ≠ current → ∀ d ∈ astarDirs,
    inB (x.1 + d.1, x.2 + d.2) → st.gScore (x.1 + d.1, x.2 + d.2) ≠ ⊤
  goalOpen : ¬ isClosed st goal
  parentStep : ∀ n c : Cell, st.cameFrom n = some c → dC n = dC c + 1
  countBound : ∀ e ∈ st.openSet, e.2.1 ≤ st.count
  countOrder : ∀ e ∈ st.openSet, ∀ e2 ∈ st.openSet, onBox goal e.2.2 → onBox goal e2.2.2 →
    dC e.2.2 < dC e2.2.2 → e.2.1 < e2.2.1
  boxParent : ∀ e ∈ st.openSet, onBox goal e.2.2 → e.2.2 ≠ gridCenter →
    ∃ p : Cell, adjacentCells p e.2.2 ∧ onBox goal p ∧ dC e.2.2 = dC p + 1 ∧ isClosed st p
  closedPrefix : ∀ x y : Cell, onBox goal x → onBox goal y → isClosed st x →
    dC y < dC x → isClosed st y
  startG : st.gScore gridCenter ≠ ⊤
  ringBound : ∀ e ∈ st.openSet, onBox goal e.2.2 → dC e.2.2 ≤ dC current + 1
  lowAssigned : ∀ y : Cell, onBox goal y → dC y ≤ dC current → st.gScore y ≠ ⊤
  curClosed : st.gScore current = ((dC current : ℕ) : WithTop ℕ) ∧
    st.openHash current = false
  curBox : onBox goal current

lemma EInv_init (goal : Cell) (hg : inB goal) : EInv goal (initAState goal) := by
  have hgs : ∀ x : Cell, (initAState goal).gScore x =
      (if x = gridCenter then (0 : WithTop ℕ) else ⊤) := fun _ => rfl
  have hhash : ∀ x : Cell, (initAState goal).openHash x = decide (x = gridCenter) :=
    fun _ => rfl
  refine ⟨?_, ?_, ?_, ?_, ?_, ?_, ?_, ?_, ?_, ?_, ?_, ?_, ?_⟩
  · intro x a h
    rw [hgs] at h
    by_cases hx : x = gridCenter
    · rw [if_pos hx] at h
      subst hx
      have : (0 : ℕ) = a := by exact_mod_cast h
      constructor
      · rw [← this, dC, heuristic_self]
      · decide
    · rw [if_neg hx] at h
      exact absurd h.symm WithTop.coe_ne_top
  · intro e he
    simp only [initAState, List.mem_singleton] at he
    subst he
    constructor
    · show ((heuristic gridCenter goal : ℕ) : WithTop ℕ) = _
      have : dC gridCenter = 0 := by rw [dC, heuristic_self]
      rw [this]
      simp [dGoal]
    · rw [hgs, if_pos rfl]
      have : dC gridCenter = 0 := by rw [dC, heuristic_self]
      rw [this]
      simp
  · intro x
    rw [hhash]
    simp only [initAState, List.mem_singleton, decide_eq_true_iff]
    constructor
    · intro h
      exact ⟨_, rfl, h.symm⟩
    · rintro ⟨e, he, hcell⟩
      subst he
      exact hcell.symm
  · simp [initAState]
  · intro x hx
    exfalso
    obtain ⟨hfin, hhx⟩ := hx
    rw [hgs] at hfin
    by_cases hc : x = gridCenter
    · rw [hhash, hc] at hhx
      simp at hhx
    · rw [if_neg hc] at hfin
      exact hfin rfl
  · intro hx
    obtain ⟨hfin, hhx⟩ := hx
    rw [hgs] at hfin
    by_cases hc : goal = gridCenter
    · rw [hhash, hc] at hhx
      simp at hhx
    · rw [if_neg hc] at hfin
      exact hfin rfl
  · refine ⟨(((heuristic gridCenter goal : ℕ) : WithTop ℕ), 0, gridCenter), ?_, ?_⟩
    · simp [initAState]
    · rfl
  · intro n c h
    simp [initAState] at h
  · intro e he
    simp only [initAState, List.mem_singleton] at he
    subst he
    exact le_refl 0
  · intro e he e2 he2 _ _ hlt
    simp only [initAState, List.mem_singleton] at he he2
    subst he
    subst he2
    exact absurd hlt (lt_irrefl _)
  · intro e he _ hne
    simp only [initAState, List.mem_singleton] at he
    subst he
    exact absurd rfl hne
  · intro x y _ _ hx hlt
    exfalso
    obtain ⟨hfin, hhx⟩ := hx
    rw [hgs] at hfin
    by_cases hc : x = gridCenter
    · rw [hhash, hc] at hhx
      simp at hhx
    · rw [if_neg hc] at hfin
      exact hfin rfl
  · rw [hgs, if_pos rfl]
    exact WithTop.zero_ne_top

/-! ### Facts derived at pop time -/

lemma dC_center : dC gridCenter = 0 := heuristic_self gridCenter

lemma dC_eq_zero {x : Cell} (h : dC x = 0) : x = gridCenter :=
  (heuristic_eq_zero h).symm

lemma entryLt_false_le {a b : AEntry} (h : entryLt a b = false) : b.1 ≤ a.1 := by
  by_contra hc
  have hlt : a.1 < b.1 := not_le.mp hc
  rw [Bool.eq_false_iff] at h
  exact h ((entryLt_iff a b).mpr (Or.inl hlt))

lemma perm_cons_erase_entry {l : List AEntry} {a : AEntry} (h : a ∈ l) :
    l.Perm (a :: l.erase a) := by
  induction l with
  | nil => cases h
  | cons x xs ih =>
      by_cases hax : x = a
      · subst hax
        rw [List.erase_cons_head]
      · have hmem : a ∈ xs := by
          rcases List.mem_cons.mp h with heq | hm
          · exact absurd heq.symm hax
          · exact hm
        rw [List.erase_cons_tail (by simp [hax])]
        exact ((ih hmem).cons x).trans (List.Perm.swap a x _)

lemma popMin_perm {l : List AEntry} {e : AEntry} {rest : List AEntry}
    (h : popMin l = some (e, rest)) : l.Perm (e :: rest) := by
  cases l with
  | nil => simp [popMin] at h
  | cons x xs =>
      simp only [popMin, Option.some.injEq, Prod.mk.injEq] at h
      rw [← h.1, ← h.2]
      exact perm_cons_erase_entry (findMinEntry_mem x xs)

/-- A popped entry always carries the optimal key `dC goal` (the heuristic is
consistent, so all keys are at least `dC goal`, and the `frontier` invariant
supplies an entry attaining it); hence the popped cell lies on a shortest
center→goal route and its score is its exact start distance. -/
lemma popped_facts (goal : Cell) (st : AState) (hE : EInv goal st)
    {e : AEntry} {rest : List AEntry} (hpop : popMin st.openSet = some (e, rest)) :
    e.1 = ((dC goal : ℕ) : WithTop ℕ) ∧ onBox goal e.2.2 ∧
    st.gScore e.2.2 = ((dC e.2.2 : ℕ) : WithTop ℕ) := by
  have hmem := popMin_mem hpop
  have hmin := popMin_not_lt hpop
  obtain ⟨ek, hge⟩ := hE.entryKey e hmem
  obtain ⟨ex, hex, hxkey⟩ := hE.frontier
  have hle : e.1 ≤ ex.1 := entryLt_false_le (hmin ex hex)
  rw [hxkey, ek] at hle
  have htri : dC goal ≤ dC e.2.2 + dGoal goal e.2.2 :=
    heuristic_triangle gridCenter e.2.2 goal
  have hnat : dC e.2.2 + dGoal goal e.2.2 ≤ dC goal := by exact_mod_cast hle
  have heq : dC e.2.2 + dGoal goal e.2.2 = dC goal := le_antisymm hnat htri
  refine ⟨?_, heq, hge⟩
  rw [ek]
  exact_mod_cast congrArg (fun n : ℕ => (n : WithTop ℕ)) heq

/-- Every box cell no farther from the start than the popped minimum already
has a (finite, optimal) score: walking box parents toward the start, an
unassigned cell would give an open box entry with key `dC goal` but a strictly
smaller tie-break counter than the popped minimum — contradiction. -/
lemma all_lower_assigned (goal : Cell) (hg : inB goal) (st : AState) (hE : EInv goal st)
    {e : AEntry} (hmem : e ∈ st.openSet)
    (hmin : ∀ x ∈ st.openSet, entryLt x e = false)
    (hkey : e.1 = ((dC goal : ℕ) : WithTop ℕ)) (hebox : onBox goal e.2.2) :
    ∀ y : Cell, onBox goal y → dC y ≤ dC e.2.2 → st.gScore y ≠ ⊤ := by
  have aux : ∀ (n : ℕ) (y : Cell), dC y ≤ n → onBox goal y → dC y ≤ dC e.2.2 →
      st.gScore y ≠ ⊤ := by
    intro n
    induction n with
    | zero =>
        intro y hn _ _
        rw [dC_eq_zero (Nat.le_zero.mp hn)]
        exact hE.startG
    | succ n ih =>
        intro y hn hbox hle
        by_cases hy0 : dC y = 0
        · rw [dC_eq_zero hy0]
          exact hE.startG
        · have hyc : y ≠ gridCenter := fun hc => hy0 (by rw [hc]; exact dC_center)
          obtain ⟨p, hadj, hpbox, hstep⟩ := box_parent_exists hbox hyc
          have hdp : dC y = dC p + 1 := hstep
          have hgp : st.gScore p ≠ ⊤ := ih p (by omega) hpbox (by omega)
          by_cases hhash : st.openHash p = true
          · obtain ⟨ep, hep, hcell⟩ := (hE.hashIff p).mp hhash
            obtain ⟨epk, _⟩ := hE.entryKey ep hep
            have hpb : dC p + dGoal goal p = dC goal := hpbox
            have hepkey : ep.1 = ((dC goal : ℕ) : WithTop ℕ) := by
              rw [epk, hcell]
              exact_mod_cast congrArg (fun n : ℕ => (n : WithTop ℕ)) hpb
            have hcell2 : dC ep.2.2 < dC e.2.2 := by
              rw [hcell]
              omega
            have hcount : ep.2.1 < e.2.1 :=
              hE.countOrder ep hep e hmem (by rw [hcell]; exact hpbox) hebox hcell2
            have hlt : entryLt ep e = true :=
              (entryLt_iff ep e).mpr (Or.inr ⟨by rw [hepkey, hkey], Or.inl hcount⟩)
            rw [hmin ep hep] at hlt
            exact Bool.noConfusion hlt
          · have hclp : isClosed st p := ⟨hgp, Bool.eq_false_iff.mpr hhash⟩
            obtain ⟨d, hd, hyd⟩ := adjacent_exists_dir hadj
            have hyin : inB y := box_inB hg hbox
            have hres := hE.closedNb p hclp d hd (by rw [← hyd]; exact hyin)
            rw [← hyd] at hres
            exact hres
  exact fun y hbox hle => aux (dC y) y le_rfl hbox hle

/-- From any popped (closed) box cell there is an open entry with the optimal
key `dC goal`: walk the box toward the goal; the first cell still in the open
set carries that key, and the walk cannot pass the goal because the goal is
never closed before the loop stops. -/
lemma M_entry_from_closed (goal : Cell) (hg : inB goal) (st : AState)
    (hKey : ∀ e ∈ st.openSet, e.1 = ((dC e.2.2 + dGoal goal e.2.2 : ℕ) : WithTop ℕ))
    (hIff : ∀ x : Cell, st.openHash x = true ↔ ∃ e ∈ st.openSet, e.2.2 = x)
    (hNb : ∀ x : Cell, isClosed st x → ∀ d ∈ astarDirs,
      inB (x.1 + d.1, x.2 + d.2) → st.gScore (x.1 + d.1, x.2 + d.2) ≠ ⊤)
    (hGoalOpen : ¬ isClosed st goal) :
    ∀ (n : ℕ) (x : Cell), dGoal goal x ≤ n → onBox goal x → isClosed st x →
      ∃ e ∈ st.openSet, e.1 = ((dC goal : ℕ) : WithTop ℕ) := by
  intro n
  induction n with
  | zero =>
      intro x hx _ hcl
      have hxg : x = goal := h_eq_zero_iff_goal.mp (Nat.le_zero.mp hx)
      rw [hxg] at hcl
      exact absurd hcl hGoalOpen
  | succ n ih =>
      intro x hx hbox hcl
      by_cases hxg : x = goal
      · rw [hxg] at hcl
        exact absurd hcl hGoalOpen
      · obtain ⟨y, hadj, hybox, hdy, hhy⟩ := box_step_toward_goal hbox hxg
        obtain ⟨d, hd, hyd⟩ := adjacent_exists_dir hadj
        have hyin : inB y := box_inB hg hybox
        have hgy : st.gScore y ≠ ⊤ := by
          have hres := hNb x hcl d hd (by rw [← hyd]; exact hyin)
          rw [← hyd] at hres
          exact hres
        by_cases hhash : st.openHash y = true
        · obtain ⟨e, he, hcell⟩ := (hIff y).mp hhash
          refine ⟨e, he, ?_⟩
          rw [hKey e he, hcell]
          have hyb : dC y + dGoal goal y = dC goal := hybox
          exact_mod_cast congrArg (fun n : ℕ => (n : WithTop ℕ)) hyb
        · have hcly : isClosed st y := ⟨hgy, Bool.eq_false_iff.mpr hhash⟩
          have hdgy : dGoal goal y ≤ n := by
            have hh : dGoal goal y + 1 = dGoal goal x := hhy
            omega
          exact ih y hdgy hybox hcly

/-! ### Popping the minimum entry establishes the mid-relaxation invariant -/

lemma EInv_pop (goal : Cell) (hg : inB goal) (st : AState) (hE : EInv goal st)
    {e : AEntry} {rest : List AEntry} (hpop : popMin st.openSet = some (e, rest))
    (hne : e.2.2 ≠ goal) :
    RInv goal e.2.2 { st with openSet := rest, openHash := updFun st.openHash e.2.2 false } := by
  have hmem := popMin_mem hpop
  have hmin := popMin_not_lt hpop
  have hsub := popMin_rest_sub hpop
  have hperm := popMin_perm hpop
  obtain ⟨hkeyM, hboxc, hgc⟩ := popped_facts goal st hE hpop
  have hlow : ∀ y : Cell, onBox goal y → dC y ≤ dC e.2.2 → st.gScore y ≠ ⊤ :=
    all_lower_assigned goal hg st hE hmem hmin hkeyM hboxc
  have hnd2 : ((e :: rest).map (fun e' => e'.2.2)).Nodup :=
    (hperm.map (fun e' => e'.2.2)).nodup hE.cellsNodup
  have hnotin : e.2.2 ∉ rest.map (fun e' => e'.2.2) := (List.nodup_cons.mp hnd2).1
  have hndrest : (rest.map (fun e' => e'.2.2)).Nodup := (List.nodup_cons.mp hnd2).2
  have hcurhash : st.openHash e.2.2 = true := (hE.hashIff e.2.2).mpr ⟨e, hmem, rfl⟩
  have hcurnc : ¬ isClosed st e.2.2 := fun hc => by
    have h2 := hc.2
    rw [hcurhash] at h2
    exact Bool.noConfusion h2
  have hmono1 : ∀ x : Cell, isClosed st x →
      isClosed { st with openSet := rest, openHash := updFun st.openHash e.2.2 false } x := by
    intro x hx
    refine ⟨hx.1, ?_⟩
    show updFun st.openHash e.2.2 false x = false
    by_cases hxc : x = e.2.2
    · rw [hxc, updFun_self]
    · rw [updFun_ne _ _ _ hxc]
      exact hx.2
  -- the freshly closed ring-prefix fact, used twice below
  have hfresh : ∀ y : Cell, onBox goal y → dC y < dC e.2.2 → isClosed st y := by
    intro y hybox hylt
    have hgy : st.gScore y ≠ ⊤ := hlow y hybox (le_of_lt hylt)
    by_cases hhash : st.openHash y = true
    · exfalso
      obtain ⟨ey, hey, hycell⟩ := (hE.hashIff y).mp hhash
      obtain ⟨eyk, _⟩ := hE.entryKey ey hey
      have hyb : dC y + dGoal goal y = dC goal := hybox
      have heykey : ey.1 = ((dC goal : ℕ) : WithTop ℕ) := by
        rw [eyk, hycell]
        exact_mod_cast congrArg (fun n : ℕ => (n : WithTop ℕ)) hyb
      have hcount : ey.2.1 < e.2.1 :=
        hE.countOrder ey hey e hmem (by rw [hycell]; exact hybox) hboxc
          (by rw [hycell]; exact hylt)
      have hlt : entryLt ey e = true :=
        (entryLt_iff ey e).mpr (Or.inr ⟨by rw [heykey, hkeyM], Or.inl hcount⟩)
      rw [hmin ey hey] at hlt
      exact Bool.noConfusion hlt
    · exact ⟨hgy, Bool.eq_false_iff.mpr hhash⟩
  refine ⟨hE.gOpt, ?_, ?_, hndrest, ?_, ?_, hE.parentStep, ?_, ?_, ?_, ?_, hE.startG,
    ?_, ?_, ?_, hboxc⟩
  · exact fun e' he' => hE.entryKey e' (hsub e' he')
  · intro x
    show updFun st.openHash e.2.2 false x = true ↔ _
    by_cases hxc : x = e.2.2
    · rw [hxc, updFun_self]
      constructor
      · intro hfalse
        exact Bool.noConfusion hfalse
      · rintro ⟨e', he', hcell⟩
        exact absurd (hcell ▸ List.mem_map_of_mem (fun e'' => e''.2.2) he') hnotin
    · rw [updFun_ne _ _ _ hxc, hE.hashIff x]
      constructor
      · rintro ⟨e', he', hcell⟩
        rcases List.mem_cons.mp (hperm.mem_iff.mp he') with heq | hr
        · exact absurd (by rw [← hcell, heq]) hxc
        · exact ⟨e', hr, hcell⟩
      · rintro ⟨e', he', hcell⟩
        exact ⟨e', hsub e' he', hcell⟩
  · intro x hx hxc d hd hin
    refine hE.closedNb x ?_ d hd hin
    refine ⟨hx.1, ?_⟩
    have h2 : updFun st.openHash e.2.2 false x = false := hx.2
    rw [updFun_ne _ _ _ hxc] at h2
    exact h2
  · intro hcl
    apply hE.goalOpen
    refine ⟨hcl.1, ?_⟩
    have h2 : updFun st.openHash e.2.2 false goal = false := hcl.2
    rw [updFun_ne _ _ _ (Ne.symm hne)] at h2
    exact h2
  · exact fun e' he' => hE.countBound e' (hsub e' he')
  · exact fun e' he' e2 he2 => hE.countOrder e' (hsub e' he') e2 (hsub e2 he2)
  · intro e' he' hbox' hnc
    obtain ⟨p, hadj, hpbox, hstep, hpcl⟩ := hE.boxParent e' (hsub e' he') hbox' hnc
    exact ⟨p, hadj, hpbox, hstep, hmono1 p hpcl⟩
  · intro x y hbx hby hclx hlt
    by_cases hxc : x = e.2.2
    · exact hmono1 y (hfresh y hby (by rw [← hxc]; exact hlt))
    · have hclx' : isClosed st x := by
        refine ⟨hclx.1, ?_⟩
        have h2 : updFun st.openHash e.2.2 false x = false := hclx.2
        rw [updFun_ne _ _ _ hxc] at h2
        exact h2
      exact hmono1 y (hE.closedPrefix x y hbx hby hclx' hlt)
  · intro e' he' hbox'
    by_cases hcc : e'.2.2 = gridCenter
    · rw [hcc, dC_center]
      omega
    · obtain ⟨p, hadj, hpbox, hstep, hpcl⟩ := hE.boxParent e' (hsub e' he') hbox' hcc
      have hple : ¬ (dC e.2.2 < dC p) := by
        intro hplt
        exact hcurnc (hE.closedPrefix p e.2.2 hpbox hboxc hpcl hplt)
      omega
  · exact fun y hby hle => hlow y hby hle
  · exact ⟨hgc, updFun_self _ _ _⟩

/-! ### A fresh assignment preserves the mid-relaxation invariant -/

/-- On the obstacle-free grid, the only relaxation that fires assigns a fresh
cell `nb` adjacent to the popped cell, one step farther from the start; the
assigned score is therefore immediately optimal and every invariant field
survives. `st'` is the post-assignment state, described by its fields. -/
lemma RInv_update (goal current nb : Cell) (st st' : AState)
    (hcf : st'.cameFrom = updFun st.cameFrom nb (some current))
    (hgs : st'.gScore = updFun st.gScore nb (st.gScore current + 1))
    (hcount : st'.count = st.count + 1)
    (hopen : st'.openSet = st.openSet ++
      [(((dC nb + dGoal goal nb : ℕ) : WithTop ℕ), st.count + 1, nb)])
    (hhash : st'.openHash = updFun st.openHash nb true)
    (hR : RInv goal current st)
    (hadjcn : adjacentCells current nb)
    (hnbin : inB nb)
    (hgnb : st.gScore nb = ⊤)
    (hdnb : dC nb = dC current + 1) :
    RInv goal current st' ∧ (∀ x : Cell, isClosed st x → isClosed st' x) ∧
    (∀ z : Cell, st.gScore z ≠ ⊤ → st'.gScore z ≠ ⊤) ∧ st'.gScore nb ≠ ⊤ := by
  have htent : st.gScore current + 1 = ((dC current + 1 : ℕ) : WithTop ℕ) := by
    rw [hR.curClosed.1]
    exact_mod_cast rfl
  have hnbne : nb ≠ current := fun h => adjacentCells_irrefl current (h ▸ hadjcn)
  have hcurne : current ≠ nb := Ne.symm hnbne
  have hcellne : ∀ e' ∈ st.openSet, e'.2.2 ≠ nb := by
    intro e' he' hcc
    have hgq := (hR.entryKey e' he').2
    rw [hcc, hgnb] at hgq
    exact absurd hgq.symm WithTop.coe_ne_top
  have hgnb' : st'.gScore nb = ((dC nb : ℕ) : WithTop ℕ) := by
    rw [hgs, updFun_self, htent, hdnb]
  have hgmono : ∀ z : Cell, st.gScore z ≠ ⊤ → st'.gScore z ≠ ⊤ := by
    intro z hz
    rw [hgs]
    by_cases hzz : z = nb
    · rw [hzz, updFun_self, htent]
      exact WithTop.coe_ne_top
    · rw [updFun_ne _ _ _ hzz]
      exact hz
  have hclmono : ∀ x : Cell, isClosed st x → isClosed st' x := by
    intro x hx
    have hxnb : x ≠ nb := fun h => hx.1 (by rw [h]; exact hgnb)
    exact ⟨hgmono x hx.1, by rw [hhash, updFun_ne _ _ _ hxnb]; exact hx.2⟩
  have hclback : ∀ x : Cell, isClosed st' x → x ≠ nb → isClosed st x := by
    intro x hx hxnb
    refine ⟨?_, ?_⟩
    · have h1 := hx.1
      rw [hgs, updFun_ne _ _ _ hxnb] at h1
      exact h1
    · have h2 := hx.2
      rw [hhash, updFun_ne _ _ _ hxnb] at h2
      exact h2
  have hnotnb : ∀ x : Cell, isClosed st' x → x ≠ nb := by
    intro x hx h
    have h2 := hx.2
    rw [hhash, h, updFun_self] at h2
    exact Bool.noConfusion h2
  refine ⟨⟨?_, ?_, ?_, ?_, ?_, ?_, ?_, ?_, ?_, ?_, ?_, ?_, ?_, ?_, ?_, hR.curBox⟩,
    hclmono, hgmono, by rw [hgnb']; exact WithTop.coe_ne_top⟩
  · intro x a hx
    rw [hgs] at hx
    by_cases hxx : x = nb
    · subst hxx
      rw [updFun_self, htent] at hx
      have hax : dC current + 1 = a := by exact_mod_cast hx
      exact ⟨by omega, hnbin⟩
    · rw [updFun_ne _ _ _ hxx] at hx
      exact hR.gOpt x a hx
  · intro e' he'
    rw [hopen] at he'
    rcases List.mem_append.mp he' with hold | hnew
    · refine ⟨(hR.entryKey e' hold).1, ?_⟩
      rw [hgs, updFun_ne _ _ _ (hcellne e' hold)]
      exact (hR.entryKey e' hold).2
    · rw [List.mem_singleton.mp hnew]
      exact ⟨rfl, hgnb'⟩
  · intro x
    rw [hhash, hopen]
    by_cases hxx : x = nb
    · subst hxx
      rw [updFun_self]
      constructor
      · intro _
        exact ⟨_, List.mem_append.mpr (Or.inr (List.mem_singleton_self _)), rfl⟩
      · intro _
        rfl
    · rw [updFun_ne _ _ _ hxx, hR.hashIff x]
      constructor
      · rintro ⟨e', he', hcell⟩
        exact ⟨e', List.mem_append.mpr (Or.inl he'), hcell⟩
      · rintro ⟨e', he', hcell⟩
        rcases List.mem_append.mp he' with hold | hnew
        · exact ⟨e', hold, hcell⟩
        · rw [List.mem_singleton.mp hnew] at hcell
          exact absurd hcell.symm hxx
  · rw [hopen, List.map_append]
    refine List.Nodup.append hR.cellsNodup (List.nodup_singleton _) ?_
    intro a ha hb
    simp only [List.map_cons, List.map_nil, List.mem_singleton] at hb
    subst hb
    obtain ⟨e', he', hc⟩ := List.mem_map.mp ha
    exact hcellne e' he' hc
  · intro x hx hxcur d' hd' hin'
    have hxnb := hnotnb x hx
    have hres := hR.closedNbExcept x (hclback x hx hxnb) hxcur d' hd' hin'
    exact hgmono _ hres
  · intro hcl
    exact hR.goalOpen (hclback goal hcl (hnotnb goal hcl))
  · intro n c hcn
    rw [hcf] at hcn
    by_cases hnn : n = nb
    · subst hnn
      rw [updFun_self] at hcn
      cases hcn
      exact hdnb
    · rw [updFun_ne _ _ _ hnn] at hcn
      exact hR.parentStep n c hcn
  · intro e' he'
    rw [hopen] at he'
    rw [hcount]
    rcases List.mem_append.mp he' with hold | hnew
    · exact le_trans (hR.countBound e' hold) (Nat.le_succ _)
    · rw [List.mem_singleton.mp hnew]
  · intro e' he' e2 he2 hb1 hb2 hlt'
    rw [hopen] at he' he2
    rcases List.mem_append.mp he' with hold1 | hnew1
    · rcases List.mem_append.mp he2 with hold2 | hnew2
      · exact hR.countOrder e' hold1 e2 hold2 hb1 hb2 hlt'
      · rw [List.mem_singleton.mp hnew2]
        exact Nat.lt_succ_of_le (hR.countBound e' hold1)
    · rcases List.mem_append.mp he2 with hold2 | hnew2
      · exfalso
        have hrb := hR.ringBound e2 hold2 hb2
        rw [List.mem_singleton.mp hnew1] at hlt'
        have hcontra : dC nb < dC e2.2.2 := hlt'
        omega
      · exfalso
        rw [List.mem_singleton.mp hnew1, List.mem_singleton.mp hnew2] at hlt'
        exact lt_irrefl _ hlt'
  · intro e' he' hb' hnc
    rw [hopen] at he'
    rcases List.mem_append.mp he' with hold | hnew
    · obtain ⟨p, hadj, hpbox, hstep, hpcl⟩ := hR.boxParent e' hold hb' hnc
      exact ⟨p, hadj, hpbox, hstep, hclmono p hpcl⟩
    · rw [List.mem_singleton.mp hnew]
      refine ⟨current, hadjcn, hR.curBox, hdnb, ?_, ?_⟩
      · rw [hgs, updFun_ne _ _ _ hcurne, hR.curClosed.1]
        exact WithTop.coe_ne_top
      · rw [hhash, updFun_ne _ _ _ hcurne]
        exact hR.curClosed.2
  · intro x y hbx hby hclx hlty
    exact hclmono y (hR.closedPrefix x y hbx hby (hclback x hclx (hnotnb x hclx)) hlty)
  · exact hgmono gridCenter hR.startG
  · intro e' he' hb'
    rw [hopen] at he'
    rcases List.mem_append.mp he' with hold | hnew
    · exact hR.ringBound e' hold hb'
    · rw [List.mem_singleton.mp hnew]
      exact le_of_eq hdnb
  · exact fun y hb hle => hgmono y (hR.lowAssigned y hb hle)
  · refine ⟨?_, ?_⟩
    · rw [hgs, updFun_ne _ _ _ hcurne]
      exact hR.curClosed.1
    · rw [hhash, updFun_ne _ _ _ hcurne]
      exact hR.curClosed.2

/-- One relaxation step on an obstacle-free grid preserves `RInv`; moreover
closedness and assignedness are monotone, and afterwards the relaxed neighbor
is assigned whenever it is in bounds. -/
lemma relaxNeighbor_RInv (g : Grid)
    (hclear : ∀ x : Cell, isValidAndClear g x.1 x.2 = true ↔ inB x)
    (goal current : Cell) (hg : inB goal) (st : AState)
    (d : ℤ × ℤ) (hd : d ∈ astarDirs) (hR : RInv goal current st) :
    RInv goal current (relaxNeighbor g goal current st d) ∧
    (∀ x : Cell, isClosed st x → isClosed (relaxNeighbor g goal current st d) x) ∧
    (∀ z : Cell, st.gScore z ≠ ⊤ → (relaxNeighbor g goal current st d).gScore z ≠ ⊤) ∧
    (inB (current.1 + d.1, current.2 + d.2) →
      (relaxNeighbor g goal current st d).gScore (current.1 + d.1, current.2 + d.2) ≠ ⊤) := by
  have hadj : adjacentCells current (current.1 + d.1, current.2 + d.2) :=
    astarDirs_adj hd current
  simp only [relaxNeighbor]
  split
  · rename_i hval
    have hnbin : inB (current.1 + d.1, current.2 + d.2) :=
      (hclear (current.1 + d.1, current.2 + d.2)).mp hval
    split
    · rename_i hlt
      have hledist : dC (current.1 + d.1, current.2 + d.2) ≤ dC current + 1 :=
        (adjacent_dist_le hadj).1
      have hgnb : st.gScore (current.1 + d.1, current.2 + d.2) = ⊤ := by
        by_contra hfin
        obtain ⟨a, ha⟩ := WithTop.ne_top_iff_exists.mp hfin
        have ha' : st.gScore (current.1 + d.1, current.2 + d.2) =
            ((a : ℕ) : WithTop ℕ) := ha.symm
        obtain ⟨hax, _⟩ := hR.gOpt _ a ha'
        have hle2 : st.gScore (current.1 + d.1, current.2 + d.2) ≤
            st.gScore current + 1 := by
          rw [hR.curClosed.1, ha']
          exact_mod_cast (show a ≤ dC current + 1 by omega)
        exact absurd hlt (not_lt.mpr hle2)
      have hdc : dC (current.1 + d.1, current.2 + d.2) = dC current + 1 ∨
          dC current = dC (current.1 + d.1, current.2 + d.2) + 1 :=
        adjacent_dist_cases hadj
      have hdnb : dC (current.1 + d.1, current.2 + d.2) = dC current + 1 := by
        rcases hdc with h1 | h1
        · exact h1
        · exfalso
          have hnbbox : onBox goal (current.1 + d.1, current.2 + d.2) :=
            box_adj_pred hR.curBox hadj h1.symm
          exact hR.lowAssigned _ hnbbox (by omega) hgnb
      have hhashnb : st.openHash (current.1 + d.1, current.2 + d.2) = false := by
        rcases Bool.eq_false_or_eq_true
            (st.openHash (current.1 + d.1, current.2 + d.2)) with h | h
        · exfalso
          obtain ⟨e', he', hc⟩ := (hR.hashIff (current.1 + d.1, current.2 + d.2)).mp h
          have hgq := (hR.entryKey e' he').2
          rw [hc, hgnb] at hgq
          exact absurd hgq.symm WithTop.coe_ne_top
        · exact h
      split
      · rename_i hhash
        exfalso
        have hh : st.openHash (current.1 + d.1, current.2 + d.2) = true := hhash
        rw [hhashnb] at hh
        exact Bool.noConfusion hh
      · have hkeyeq : updFun st.fScore (current.1 + d.1, current.2 + d.2)
            (st.gScore current + 1 +
              ((heuristic (current.1 + d.1, current.2 + d.2) goal : ℕ) : WithTop ℕ))
            (current.1 + d.1, current.2 + d.2) =
            ((dC (current.1 + d.1, current.2 + d.2) +
              dGoal goal (current.1 + d.1, current.2 + d.2) : ℕ) : WithTop ℕ) := by
          rw [updFun_self, hR.curClosed.1, hdnb]
          exact_mod_cast rfl
        obtain ⟨h1, h2, h3, h4⟩ := RInv_update goal current
          (current.1 + d.1, current.2 + d.2) st
          { st with
            cameFrom := updFun st.cameFrom (current.1 + d.1, current.2 + d.2) (some current)
            gScore := updFun st.gScore (current.1 + d.1, current.2 + d.2)
              (st.gScore current + 1)
            fScore := updFun st.fScore (current.1 + d.1, current.2 + d.2)
              (st.gScore current + 1 +
                ((heuristic (current.1 + d.1, current.2 + d.2) goal : ℕ) : WithTop ℕ))
            count := st.count + 1
            openSet := st.openSet ++
              [(updFun st.fScore (current.1 + d.1, current.2 + d.2)
                  (st.gScore current + 1 +
                    ((heuristic (current.1 + d.1, current.2 + d.2) goal : ℕ) : WithTop ℕ))
                  (current.1 + d.1, current.2 + d.2), st.count + 1,
                ((current.1 + d.1, current.2 + d.2) : Cell))]
            openHash := updFun st.openHash (current.1 + d.1, current.2 + d.2) true }
          rfl rfl rfl
          (congrArg (fun k => st.openSet ++
            [(k, st.count + 1, ((current.1 + d.1, current.2 + d.2) : Cell))]) hkeyeq)
          rfl hR hadj hnbin hgnb hdnb
        exact ⟨h1, h2, h3, fun _ => h4⟩
    · rename_i hnlt
      refine ⟨hR, fun x h => h, fun z h => h, fun _ => ?_⟩
      intro htop
      apply hnlt
      rw [htop, hR.curClosed.1]
      exact WithTop.coe_lt_top _
  · rename_i hval
    refine ⟨hR, fun x h => h, fun z h => h, fun hin => ?_⟩
    exact absurd ((hclear (current.1 + d.1, current.2 + d.2)).mpr hin) hval

/-- Folding the relaxation over a sublist of the direction list preserves
`RInv`, is monotone on closed and assigned cells, and assigns every in-bounds
neighbor in the list. -/
lemma relaxFold_RInv (g : Grid)
    (hclear : ∀ x : Cell, isValidAndClear g x.1 x.2 = true ↔ inB x)
    (goal current : Cell) (hg : inB goal) :
    ∀ (ds : List (ℤ × ℤ)), (∀ d ∈ ds, d ∈ astarDirs) →
      ∀ st : AState, RInv goal current st →
      RInv goal current (ds.foldl (relaxNeighbor g goal current) st) ∧
      (∀ x : Cell, isClosed st x →
        isClosed (ds.foldl (relaxNeighbor g goal current) st) x) ∧
      (∀ z : Cell, st.gScore z ≠ ⊤ →
        (ds.foldl (relaxNeighbor g goal current) st).gScore z ≠ ⊤) ∧
      (∀ d ∈ ds, inB (current.1 + d.1, current.2 + d.2) →
        (ds.foldl (relaxNeighbor g goal current) st).gScore
          (current.1 + d.1, current.2 + d.2) ≠ ⊤) := by
  intro ds
  induction ds with
  | nil =>
      intro _ st hR
      exact ⟨hR, fun x h => h, fun z h => h, fun d hd => absurd hd (List.not_mem_nil d)⟩
  | cons d ds ih =>
      intro hds st hR
      obtain ⟨h1, h2, h3, h4⟩ :=
        relaxNeighbor_RInv g hclear goal current hg st d (hds d (List.mem_cons_self d ds)) hR
      obtain ⟨g1, g2, g3, g4⟩ := ih (fun d' hd' => hds d' (List.mem_cons_of_mem d hd')) _ h1
      rw [List.foldl_cons]
      refine ⟨g1, fun x hx => g2 x (h2 x hx), fun z hz => g3 z (h3 z hz), ?_⟩
      intro d' hd' hin
      rcases List.mem_cons.mp hd' with heq | hmem
      · subst heq
        exact g3 _ (h4 hin)
      · exact g4 d' hmem hin

/-! ### Closing the iteration: invariant restoration and the measure -/

/-- After all four neighbors of the popped cell have been relaxed, the full
invariant holds again: the popped cell's neighbors are assigned, and a
frontier entry with the optimal key exists (stepping from the popped cell
toward the goal). -/
lemma RInv_to_EInv (goal current : Cell) (hg : inB goal) (st : AState)
    (hR : RInv goal current st)
    (hNbA : ∀ d ∈ astarDirs, inB (current.1 + d.1, current.2 + d.2) →
      st.gScore (current.1 + d.1, current.2 + d.2) ≠ ⊤) :
    EInv goal st := by
  have hcurcl : isClosed st current :=
    ⟨by rw [hR.curClosed.1]; exact WithTop.coe_ne_top, hR.curClosed.2⟩
  have hcurne : current ≠ goal := fun h => hR.goalOpen (h ▸ hcurcl)
  have hfull : ∀ x : Cell, isClosed st x → ∀ d ∈ astarDirs,
      inB (x.1 + d.1, x.2 + d.2) → st.gScore (x.1 + d.1, x.2 + d.2) ≠ ⊤ := by
    intro x hx d hd hin
    by_cases hxc : x = current
    · subst hxc
      exact hNbA d hd hin
    · exact hR.closedNbExcept x hx hxc d hd hin
  have hfrontier : ∃ e ∈ st.openSet, e.1 = ((dC goal : ℕ) : WithTop ℕ) := by
    obtain ⟨y, hadj, hybox, hdy, hhy⟩ := box_step_toward_goal hR.curBox hcurne
    obtain ⟨d, hd, hyd⟩ := adjacent_exists_dir hadj
    have hyin : inB y := box_inB hg hybox
    have hgy : st.gScore y ≠ ⊤ := by
      have hres := hNbA d hd (by rw [← hyd]; exact hyin)
      rw [← hyd] at hres
      exact hres
    by_cases hhash : st.openHash y = true
    · obtain ⟨e', he', hc⟩ := (hR.hashIff y).mp hhash
      refine ⟨e', he', ?_⟩
      rw [(hR.entryKey e' he').1, hc]
      have hyb : dC y + dGoal goal y = dC goal := hybox
      exact_mod_cast congrArg (fun n : ℕ => (n : WithTop ℕ)) hyb
    · exact M_entry_from_closed goal hg st (fun e he => (hR.entryKey e he).1) hR.hashIff
        hfull hR.goalOpen (dGoal goal y) y le_rfl hybox ⟨hgy, Bool.eq_false_iff.mpr hhash⟩
  exact ⟨hR.gOpt, hR.entryKey, hR.hashIff, hR.cellsNodup, hfull, hR.goalOpen, hfrontier,
    hR.parentStep, hR.countBound, hR.countOrder, hR.boxParent, hR.closedPrefix, hR.startG⟩

/-- A pop never reopens a closed cell. -/
lemma isClosed_pop {st : AState} {rest : List AEntry} {c : Cell} :
    ∀ x : Cell, isClosed st x →
      isClosed { st with openSet := rest, openHash := updFun st.openHash c false } x := by
  intro x hx
  refine ⟨hx.1, ?_⟩
  show updFun st.openHash c false x = false
  by_cases hxc : x = c
  · rw [hxc, updFun_self]
  · rw [updFun_ne _ _ _ hxc]
    exact hx.2

/-- The loop measure: closing one more box cell while never reopening closed
cells strictly shrinks the set of unpopped box cells. -/
lemma unclosedBox_lt (goal : Cell) (st st' : AState) (current : Cell)
    (hbox : onBox goal current)
    (hopen : notClosedP st current)
    (hclosed : isClosed st' current)
    (hmono : ∀ x : Cell, isClosed st x → isClosed st' x) :
    unclosedBox goal st' < unclosedBox goal st := by
  have hsub : (boxFinset goal).filter (notClosedP st') ⊆
      (boxFinset goal).filter (notClosedP st) := by
    intro x hx
    obtain ⟨hm, hnc⟩ := Finset.mem_filter.mp hx
    refine Finset.mem_filter.mpr ⟨hm, ?_⟩
    rw [notClosedP_iff] at hnc ⊢
    exact fun hcl => hnc (hmono x hcl)
  apply Finset.card_lt_card
  rw [Finset.ssubset_iff_of_subset hsub]
  refine ⟨current, Finset.mem_filter.mpr ⟨mem_boxFinset.mpr hbox, hopen⟩, ?_⟩
  intro hmem
  exact (notClosedP_iff st' current).mp (Finset.mem_filter.mp hmem).2 hclosed

/-- Completeness of the embedded A* run on the obstacle-free grid: from any
state satisfying the invariant, with fuel exceeding the number of unpopped
box cells, the loop finds the goal; the final scores give the goal its exact
start distance and every recorded parent is one step closer to the start. -/
lemma astarLoop_complete (g : Grid)
    (hclear : ∀ x : Cell, isValidAndClear g x.1 x.2 = true ↔ inB x)
    (goal : Cell) (hg : inB goal) :
    ∀ (fuel : ℕ) (st : AState), EInv goal st → unclosedBox goal st < fuel →
      ∃ stF, astarLoop g goal fuel st = some stF ∧
        stF.gScore goal = ((dC goal : ℕ) : WithTop ℕ) ∧
        ∀ n c : Cell, stF.cameFrom n = some c → dC n = dC c + 1 := by
  intro fuel
  induction fuel with
  | zero =>
      intro st _ hm
      omega
  | succ fuel ih =>
      intro st hE hm
      obtain ⟨ef, hef, _⟩ := hE.frontier
      obtain ⟨e, rest, hpop⟩ : ∃ e rest, popMin st.openSet = some (e, rest) := by
        cases hos : st.openSet with
        | nil =>
            rw [hos] at hef
            exact absurd hef (List.not_mem_nil ef)
        | cons x xs => exact ⟨_, _, rfl⟩
      have hred : astarLoop g goal (fuel + 1) st =
          (if e.2.2 = goal
            then some { st with openSet := rest, openHash := updFun st.openHash e.2.2 false }
            else astarLoop g goal fuel (relaxAll g goal e.2.2
              { st with openSet := rest, openHash := updFun st.openHash e.2.2 false })) := by
        simp only [astarLoop, hpop]
      obtain ⟨hkeyM, hboxc, hgc⟩ := popped_facts goal st hE hpop
      by_cases hgoal : e.2.2 = goal
      · refine ⟨{ st with openSet := rest, openHash := updFun st.openHash e.2.2 false },
          ?_, ?_, ?_⟩
        · rw [hred, if_pos hgoal]
        · show st.gScore goal = ((dC goal : ℕ) : WithTop ℕ)
          rw [← hgoal]
          exact hgc
        · exact fun n c h => hE.parentStep n c h
      · have hR1 := EInv_pop goal hg st hE hpop hgoal
        obtain ⟨hRf, hclmono, hgmono, hnba⟩ :=
          relaxFold_RInv g hclear goal e.2.2 hg astarDirs (fun _ h => h) _ hR1
        have hEf := RInv_to_EInv goal e.2.2 hg _ hRf hnba
        have hclF : isClosed (astarDirs.foldl (relaxNeighbor g goal e.2.2)
            { st with openSet := rest, openHash := updFun st.openHash e.2.2 false })
            e.2.2 :=
          ⟨by rw [hRf.curClosed.1]; exact WithTop.coe_ne_top, hRf.curClosed.2⟩
        have hopenc : notClosedP st e.2.2 :=
          Or.inr ((hE.hashIff e.2.2).mpr ⟨e, popMin_mem hpop, rfl⟩)
        have hmono : ∀ x : Cell, isClosed st x →
            isClosed (astarDirs.foldl (relaxNeighbor g goal e.2.2)
              { st with openSet := rest, openHash := updFun st.openHash e.2.2 false }) x :=
          fun x hx => hclmono x (isClosed_pop x hx)
        have hmlt : unclosedBox goal (astarDirs.foldl (relaxNeighbor g goal e.2.2)
            { st with openSet := rest, openHash := updFun st.openHash e.2.2 false }) <
            unclosedBox goal st :=
          unclosedBox_lt goal st _ e.2.2 hboxc hopenc hclF hmono
        obtain ⟨stF, hrunF, hgF, hstepF⟩ := ih _ hEf (by omega)
        exact ⟨stF, by rw [hred, if_neg hgoal]; exact hrunF, hgF, hstepF⟩

/-! ### Length of the reconstructed path -/

lemma reconstructWalk_mem (cf : Cell → Option Cell) :
    ∀ (fuel : ℕ) (temp x : Cell), x ∈ reconstructWalk fuel cf temp → cf x ≠ none := by
  intro fuel
  induction fuel with
  | zero =>
      intro temp x hx
      simp [reconstructWalk] at hx
  | succ fuel ih =>
      intro temp x hx
      cases hcf : cf temp with
      | none =>
          simp only [reconstructWalk, hcf] at hx
          exact absurd hx (List.not_mem_nil x)
      | some p =>
          simp only [reconstructWalk, hcf, List.mem_cons] at hx
          rcases hx with heq | hx
          · rw [heq, hcf]
            exact fun h => Option.noConfusion h
          · exact ih p x hx

/-- When every recorded parent is one unit closer to the start and every
non-start assigned cell has a parent, the reconstruction walk from a cell has
exactly its start distance as length (given enough fuel). -/
lemma reconstructWalk_length (cf : Cell → Option Cell) (gs : Cell → WithTop ℕ)
    (hStep : ∀ n c : Cell, cf n = some c → dC n = dC c + 1)
    (hPar : ∀ n c : Cell, cf n = some c → gs c ≠ ⊤)
    (hRoot : ∀ n : Cell, gs n ≠ ⊤ → cf n = none → n = gridCenter) :
    ∀ (fuel : ℕ) (temp : Cell), dC temp < fuel → gs temp ≠ ⊤ →
      (reconstructWalk fuel cf temp).length = dC temp := by
  intro fuel
  induction fuel with
  | zero =>
      intro temp hlt
      omega
  | succ fuel ih =>
      intro temp hlt hgs
      cases hcf : cf temp with
      | none =>
          simp only [reconstructWalk, hcf, List.length_nil]
          rw [hRoot temp hgs hcf, dC_center]
      | some p =>
          simp only [reconstructWalk, hcf, List.length_cons]
          have hd := hStep temp p hcf
          have hp := ih p (by omega) (hPar temp p hcf)
          omega

/-- C2. For every grid with no occupied cells (every cell below
`RENDER_THRESHOLD`) and every in-bounds goal cell at offset `(dr, dc)` from
the grid center, the planner succeeds and the returned path (which excludes
the start cell) has length exactly `|dr| + |dc|`. -/
theorem planner_optimal_C2 (g : Grid) (hg0 : ∀ r c : ℤ, g r c < RENDER_THRESHOLD)
    (dr dc : ℤ) (h : inB (gridCenter.1 + dr, gridCenter.2 + dc)) :
    ∃ path : List Cell,
      planPath g (some (gridCenter.1 + dr, gridCenter.2 + dc)) = some path ∧
      path.length = dr.natAbs + dc.natAbs := by
  have hclear := clear_valid_iff hg0
  have hlen : dC (gridCenter.1 + dr, gridCenter.2 + dc) = dr.natAbs + dc.natAbs := by
    show (gridCenter.1 - (gridCenter.1 + dr)).natAbs +
      (gridCenter.2 - (gridCenter.2 + dc)).natAbs = dr.natAbs + dc.natAbs
    omega
  have hE0 := EInv_init (gridCenter.1 + dr, gridCenter.2 + dc) h
  have hm0 : unclosedBox (gridCenter.1 + dr, gridCenter.2 + dc)
      (initAState (gridCenter.1 + dr, gridCenter.2 + dc)) < maxIterations := by
    have h1 : unclosedBox (gridCenter.1 + dr, gridCenter.2 + dc)
        (initAState (gridCenter.1 + dr, gridCenter.2 + dc)) ≤
        (boxFinset (gridCenter.1 + dr, gridCenter.2 + dc)).card :=
      Finset.card_filter_le _ _
    have h2 := boxFinset_card_le (gridCenter.1 + dr, gridCenter.2 + dc) h
    show _ < 9600
    omega
  obtain ⟨stF, hrun, hgF, hstepF⟩ := astarLoop_complete g hclear
    (gridCenter.1 + dr, gridCenter.2 + dc)
    h maxIterations (initAState (gridCenter.1 + dr, gridCenter.2 + dc)) hE0 hm0
  obtain ⟨hAF, -⟩ := astarLoop_safety g (gridCenter.1 + dr, gridCenter.2 + dc)
    maxIterations 0 (initAState (gridCenter.1 + dr, gridCenter.2 + dc))
    (AInv_init g (gridCenter.1 + dr, gridCenter.2 + dc)) (by omega) stF hrun
  have hdlt : dC (gridCenter.1 + dr, gridCenter.2 + dc) < maxIterations + 1 := by
    unfold inB GRID_DIMENSION at h
    have hc1 : gridCenter.1 = 40 := rfl
    have hc2 : gridCenter.2 = 40 := rfl
    rw [hc1, hc2] at h
    show _ < 9601
    omega
  have hgtop : stF.gScore (gridCenter.1 + dr, gridCenter.2 + dc) ≠ ⊤ := by
    rw [hgF]
    exact WithTop.coe_ne_top
  have hwalklen : (reconstructWalk (maxIterations + 1) stF.cameFrom
      (gridCenter.1 + dr, gridCenter.2 + dc)).length =
      dC (gridCenter.1 + dr, gridCenter.2 + dc) :=
    reconstructWalk_length stF.cameFrom stF.gScore hstepF
      (fun n c hc => by
        obtain ⟨a, b, _, hgb, _⟩ := hAF.parentG n c hc
        rw [hgb]
        exact WithTop.coe_ne_top)
      hAF.rootOnly (maxIterations + 1) (gridCenter.1 + dr, gridCenter.2 + dc) hdlt hgtop
  have hval : isValidAndClear g (gridCenter.1 + dr, gridCenter.2 + dc).1
      (gridCenter.1 + dr, gridCenter.2 + dc).2 = true :=
    (hclear (gridCenter.1 + dr, gridCenter.2 + dc)).mpr h
  have hcfc : stF.cameFrom gridCenter = none := by
    cases hcc : stF.cameFrom gridCenter with
    | none => rfl
    | some c =>
        have hs := hstepF gridCenter c hcc
        rw [dC_center] at hs
        omega
  have hplan : planPath g (some (gridCenter.1 + dr, gridCenter.2 + dc)) =
      some (match (reconstructWalk (maxIterations + 1) stF.cameFrom
          (gridCenter.1 + dr, gridCenter.2 + dc)).reverse with
        | [] => ([] : List Cell)
        | hd :: t => if hd = gridCenter then t else hd :: t) := by
    simp only [planPath]
    rw [if_neg (show ¬¬(isValidAndClear g (gridCenter.1 + dr, gridCenter.2 + dc).1
      (gridCenter.1 + dr, gridCenter.2 + dc).2 = true) from fun hc => hc hval)]
    rw [hrun]
  cases hw : (reconstructWalk (maxIterations + 1) stF.cameFrom
      (gridCenter.1 + dr, gridCenter.2 + dc)).reverse with
  | nil =>
      refine ⟨[], ?_, ?_⟩
      · rw [hplan, hw]
      · have hcg := congrArg List.length hw
        rw [List.length_reverse] at hcg
        simp only [List.length_nil] at hcg ⊢
        omega
  | cons hd t =>
      have hhd : hd ∈ (reconstructWalk (maxIterations + 1) stF.cameFrom
          (gridCenter.1 + dr, gridCenter.2 + dc)) := by
        rw [← List.mem_reverse, hw]
        exact List.mem_cons_self hd t
      have hhdc : hd ≠ gridCenter := by
        intro hc
        exact reconstructWalk_mem stF.cameFrom (maxIterations + 1)
          (gridCenter.1 + dr, gridCenter.2 + dc) hd hhd (by rw [hc]; exact hcfc)
      refine ⟨hd :: t, ?_, ?_⟩
      · rw [hplan, hw]
        simp only [if_neg hhdc]
      · have hcg := congrArg List.length hw
        rw [List.length_reverse] at hcg
        rw [hwalklen] at hcg
        simp only [List.length_cons] at hcg ⊢
        omega

/-- Witness for C2 on the all-zero grid at the concrete in-bounds offset
`(1, 1)` from the center: there is a returned path of length `2`. -/
theorem planner_optimal_C2_witness :
    (∀ r c : ℤ, zeroGrid r c < RENDER_THRESHOLD) ∧
    inB (gridCenter.1 + 1, gridCenter.2 + 1) ∧
    ∃ path : List Cell,
      planPath zeroGrid (some (gridCenter.1 + 1, gridCenter.2 + 1)) = some path ∧
      path.length = (1 : ℤ).natAbs + (1 : ℤ).natAbs :=
  ⟨fun r c => by norm_num [zeroGrid, RENDER_THRESHOLD], by decide,
    planner_optimal_C2 zeroGrid (fun r c => by norm_num [zeroGrid, RENDER_THRESHOLD])
      1 1 (by decide)⟩

end SelfDrive
